import Mathlib

/-!
# go-model-validator: a shallow embedding of `main.go`

The development models the tag-driven field validator of `main.go`:
`GetFieldAndTagNames`, `FieldValidator.Validate`, the five rule functions,
`newValidationError`, `throwError` and `getValidatorMap`.

Modelling conventions.

* A Go `string` is represented by the sequence of runes a `range` loop sees
  (a Lean `String`; a byte that is not valid UTF-8 is seen as `U+FFFD`).  The
  separators this program splits on (`","` and `" "`) are one-byte ASCII, so
  splitting the rune sequence agrees with splitting the bytes, and the
  registered rule names are ASCII, so comparing rune sequences with them agrees
  with comparing bytes.
* A struct value is the list of its fields in declaration order, each with its
  name, its tag and its value.  A field is exported when its name starts with an
  upper-case letter; `reflect` refuses to hand out the value of any other field.
* Go `int` is represented by `Int`; the only operation on it is `< 0`.
* The effects of the program are made explicit: a `Run` carries the trace of
  registry lookups, rule invocations and `log.Println` lines, and the way the
  run ended (normal return, panic, or `log.Fatalf`, which exits the process).
* Ranging over a Go map visits every entry once in an unspecified order; the
  order is a parameter of `Validate`.
* `unicode.IsUpper` is exact on Latin-1; the range table of the standard
  library used above Latin-1 is a parameter `U`.
-/

namespace GoModelValidator

/-! ## Values, kinds and struct types -/

/-- The kinds of `reflect.Kind`. -/
inductive Kind
  | invalid | bool | int | int8 | int16 | int32 | int64
  | uint | uint8 | uint16 | uint32 | uint64 | uintptr
  | float32 | float64 | complex64 | complex128
  | array | chan | func | interface | map | ptr | slice | string | struct
  | unsafePointer
  deriving DecidableEq, Repr

/-- The text `%v` prints for a `reflect.Kind` (the method `Kind.String`). -/
def Kind.toStr : Kind → String
  | .invalid => "invalid" | .bool => "bool" | .int => "int" | .int8 => "int8"
  | .int16 => "int16" | .int32 => "int32" | .int64 => "int64"
  | .uint => "uint" | .uint8 => "uint8" | .uint16 => "uint16"
  | .uint32 => "uint32" | .uint64 => "uint64" | .uintptr => "uintptr"
  | .float32 => "float32" | .float64 => "float64"
  | .complex64 => "complex64" | .complex128 => "complex128"
  | .array => "array" | .chan => "chan" | .func => "func"
  | .interface => "interface" | .map => "map" | .ptr => "ptr"
  | .slice => "slice" | .string => "string" | .struct => "struct"
  | .unsafePointer => "unsafe.Pointer"

/-- The kinds a value can have when its dynamic type is none of `int`,
`string`, `bool`, a struct type or a pointer type.  A defined type such as
`type MyInt int` has kind `int` without being the type `int`. -/
inductive OtherKind
  | bool | int | int8 | int16 | int32 | int64
  | uint | uint8 | uint16 | uint32 | uint64 | uintptr
  | float32 | float64 | complex64 | complex128
  | array | chan | func | map | slice | string | unsafePointer
  deriving DecidableEq, Repr

/-- The `reflect.Kind` of an `OtherKind`. -/
def OtherKind.toKind : OtherKind → Kind
  | .bool => .bool | .int => .int | .int8 => .int8 | .int16 => .int16
  | .int32 => .int32 | .int64 => .int64 | .uint => .uint | .uint8 => .uint8
  | .uint16 => .uint16 | .uint32 => .uint32 | .uint64 => .uint64
  | .uintptr => .uintptr | .float32 => .float32 | .float64 => .float64
  | .complex64 => .complex64 | .complex128 => .complex128
  | .array => .array | .chan => .chan | .func => .func | .map => .map
  | .slice => .slice | .string => .string | .unsafePointer => .unsafePointer

/-- A struct tag in parsed form: the `key:"value"` pairs in the order they are
written, as `reflect.StructTag.Lookup` reads them. -/
abbrev StructTag := List (String × String)

/-- The method `StructTag.Get`: the value of the first pair with the key, and
the empty string when the key is absent. -/
def StructTag.Get (tag : StructTag) (key : String) : String :=
  match tag.lookup key with
  | some v => v
  | none => ""

/-- One field of a struct value: its declared name, its tag and its value. -/
structure StructField (V : Type) where
  Name : String
  Tag : StructTag
  value : V

/-- A Go value held in an `any` (`interface{}`), by dynamic type. -/
inductive GoValue
  /-- The nil interface: no dynamic type. -/
  | nil
  /-- Dynamic type `int`. -/
  | int (n : Int)
  /-- Dynamic type `string`. -/
  | string (s : String)
  /-- Dynamic type `bool`. -/
  | bool (b : Bool)
  /-- A value of a struct type, with its fields in declaration order. -/
  | struct (fields : List (StructField GoValue))
  /-- A pointer: `none` is the nil pointer of its type. -/
  | ptr (elem : Option GoValue)
  /-- A value of any other dynamic type, of the given kind. -/
  | other (k : OtherKind)

/-- The kind of `reflect.ValueOf(v)`: `rv.Kind()`. -/
def GoValue.Kind : GoValue → Kind
  | .nil => .invalid
  | .int _ => .int
  | .string _ => .string
  | .bool _ => .bool
  | .struct _ => .struct
  | .ptr _ => .ptr
  | .other k => k.toKind

/-- The fields of a struct value (none for a value of another kind). -/
def GoValue.fields : GoValue → List (StructField GoValue)
  | .struct fs => fs
  | _ => []

/-! ## Effects -/

/-- The value of type `ValidationError` of `main.go`.  The member `err` is
represented by the text of the error it holds (the argument of `errors.New`);
the address of that error value, which is what `%v` prints for the member, is
not part of this value (see `Sprintln`). -/
structure ValidationError where
  err : String
  isSilent : Bool
  deriving DecidableEq, Repr

/-- The ways a run can panic. -/
inductive Panic
  /-- The call `log.Panicf(format, ...)`: the text is logged, then panicked with. -/
  | logPanicf (msg : String)
  /-- The call `log.Panicln(err)`; `err` is the argument of the call.  The line
  logged and the value panicked with is the text `fmt.Sprintln(err)`, which is
  `Sprintln addr err` for the address `addr` of the error held by `err`. -/
  | logPanicln (err : ValidationError)
  /-- A failed type assertion `v.(T)`: a run-time `interface conversion` panic. -/
  | interfaceConversion (want : String)
  /-- A panic raised inside package `reflect`. -/
  | reflect (msg : String)
  deriving DecidableEq, Repr

/-- How a run ends. -/
inductive Outcome
  /-- The function returned (for `Validate`: it returned `nil`). -/
  | returned
  /-- The goroutine panicked. -/
  | panic (p : Panic)
  /-- The call `log.Fatalf` logged the text and exited the process with status 1. -/
  | fatal (msg : String)
  deriving DecidableEq, Repr

/-- What a run does, in order. -/
inductive Event
  /-- The registry lookup `validatorMap[splittedTag]` made for field `field`. -/
  | lookup (field : String) (tag : String)
  /-- The call `validatorFunc(fieldValue.Interface(), failSilently)` of the
  function registered under `tag`, on the value of field `field`. -/
  | invoke (field : String) (tag : String)
  /-- A line written by `log.Println(err.err)`: a silenced violation. -/
  | logged (msg : String)
  deriving DecidableEq, Repr

/-- A run: the events so far and how it ended. -/
structure Run where
  trace : List Event
  outcome : Outcome
  deriving DecidableEq, Repr

/-- The run that does nothing and returns. -/
def Run.done : Run := ⟨[], .returned⟩

/-- Sequencing of statements: the second run happens only when the first returned. -/
def Run.andThen (r : Run) (k : Run) : Run :=
  match r.outcome with
  | .returned => ⟨r.trace ++ k.trace, k.outcome⟩
  | _ => r

/-- A run that emits one event and returns. -/
def Run.emit (e : Event) : Run := ⟨[e], .returned⟩

/-- A run that stops at once with the given outcome. -/
def Run.stop (o : Outcome) : Run := ⟨[], o⟩

/-! ## Standard-library functions the program calls -/

/-- Pieces of a rune sequence between occurrences of the separator. -/
def splitRunes (sep : Char) : List Char → List (List Char)
  | [] => [[]]
  | c :: cs =>
    if c = sep then [] :: splitRunes sep cs
    else
      match splitRunes sep cs with
      | [] => [[c]]
      | piece :: pieces => (c :: piece) :: pieces

/-- The function `strings.Split(s, sep)` for a one-character separator: the
substrings of `s` between the separators, `[s]` when there is none. -/
def Split (s : String) (sep : Char) : List String :=
  (splitRunes sep s.data).map String.mk

/-- The Latin-1 part of `unicode.IsUpper`: the entries of the `properties`
table that are upper-case letters (`A`-`Z`, `À`-`Ö`, `Ø`-`Þ`). -/
def latin1Upper (r : Nat) : Bool :=
  (0x41 ≤ r && r ≤ 0x5A) || (0xC0 ≤ r && r ≤ 0xD6) || (0xD8 ≤ r && r ≤ 0xDE)

/-- The function `unicode.IsUpper`: the `properties` table up to `MaxLatin1`,
and the range table `unicode.Upper`, here `U`, above it. -/
def IsUpper (U : Nat → Bool) (r : Char) : Bool :=
  if r.toNat ≤ 0xFF then latin1Upper r.toNat else U r.toNat

/-- Whether a field name is exported: its first rune is an upper-case letter. -/
def IsExported (U : Nat → Bool) (name : String) : Bool :=
  match name.data with
  | [] => false
  | c :: _ => IsUpper U c

/-- The function `reflect.Indirect(reflect.ValueOf(obj))`: `none` is the zero
`reflect.Value` (from a nil interface or a nil pointer); a pointer is
dereferenced once. -/
def Indirect : GoValue → Option GoValue
  | .nil => none
  | .ptr elem => elem
  | v => some v

/-- The method `rv.FieldByName(k)`: the first field with that name; `none` is
the zero `reflect.Value`. -/
def FieldByName (rv : GoValue) (k : String) : Option (StructField GoValue) :=
  if k = "" then none else rv.fields.find? (fun f => f.Name == k)

/-- The method `fieldValue.Interface()`: panics on the zero Value and on a
value obtained from an unexported field. -/
def Interface (U : Nat → Bool) : Option (StructField GoValue) → Except Panic GoValue
  | none => .error (.reflect "reflect: call of reflect.Value.Interface on zero Value")
  | some f =>
    if IsExported U f.Name then .ok f.value
    else .error (.reflect
      "reflect.Value.Interface: cannot return value obtained from unexported field or method")

/-! ## `main.go` -/

/-- The type `map[string][]string`: the entries, with distinct keys. -/
abbrev FieldTagMap := List (String × List String)

/-- The statement `m[field] = append(m[field], tag)`. -/
def mapAppend : FieldTagMap → String → String → FieldTagMap
  | [], field, tag => [(field, [tag])]
  | (k, tags) :: rest, field, tag =>
    if k = field then (k, tags ++ [tag]) :: rest
    else (k, tags) :: mapAppend rest field tag

/-- The function `GetFieldAndTagNames`: for every field of the struct type of
`obj` (after one pointer indirection), the field name mapped to the list of its
`validate` tags. -/
def GetFieldAndTagNames (obj : GoValue) : Except Panic FieldTagMap :=
  let useStructFieldNamesForValidation := true
  match Indirect obj with
  | none => .error (.reflect "reflect: call of reflect.Value.Type on zero Value")
  | some (.struct fs) =>
    .ok (fs.foldl (fun fieldsAndTags f =>
      let field := if useStructFieldNamesForValidation then f.Name else f.Tag.Get "json"
      let tag := f.Tag.Get "validate"
      mapAppend fieldsAndTags field tag) [])
  | some _ => .error (.reflect "reflect: NumField of non-struct type")
  -- (the text of this panic goes on with the name of the type, not modelled)

/-- The function `newValidationError`. -/
def newValidationError (err : String) (isSilent : Bool) : ValidationError :=
  { err := err, isSilent := isSilent }

/-- The function `throwError` (the name itself is reserved in Lean):
`log.Panicln(err)` unless the error is silent, else `log.Println(err.err)`.
The strict branch records the call and its argument; the text it panics with
is given by `Sprintln`. -/
def throwErr (err : ValidationError) : Run :=
  if !err.isSilent then Run.stop (.panic (.logPanicln err))
  else Run.emit (.logged err.err)

/-- The function `positiveNumberFieldValidator`. -/
def positiveNumberFieldValidator (v : GoValue) (failSilently : Bool) : Run :=
  match v with
  | .int n =>
    if n < 0 then
      throwErr (newValidationError "positive number field must greater then zero" failSilently)
    else Run.done
  | _ => Run.stop (.panic (.interfaceConversion "int"))

/-- The function `alwaysTrueValidator`. -/
def alwaysTrueValidator (v : GoValue) (failSilently : Bool) : Run :=
  match v with
  | .bool b =>
    if b != true then
      throwErr (newValidationError "always true field must be true" failSilently)
    else Run.done
  | _ => Run.stop (.panic (.interfaceConversion "bool"))

/-- The function `nameFieldValidator`. -/
def nameFieldValidator (v : GoValue) (failSilently : Bool) : Run :=
  match v with
  | .string s =>
    if (Split s ' ').length = 1 then
      throwErr (newValidationError "name field must be minimum 2 words" failSilently)
    else Run.done
  | _ => Run.stop (.panic (.interfaceConversion "string"))

/-- The loop of `slugFieldValidator` over the runes of the string: the value of
`hasUpper` when the loop ends (it breaks at the first upper-case rune). -/
def hasUpperLoop (U : Nat → Bool) : List Char → Bool
  | [] => false
  | c :: cs => if IsUpper U c then true else hasUpperLoop U cs

/-- The function `slugFieldValidator`. -/
def slugFieldValidator (U : Nat → Bool) (v : GoValue) (failSilently : Bool) : Run :=
  match v with
  | .string s =>
    let hasUpper := hasUpperLoop U s.data
    if hasUpper then
      throwErr (newValidationError "slug field must contains lowercase letters" failSilently)
    else Run.done
  | _ => Run.stop (.panic (.interfaceConversion "string"))

/-- The function `requiredFieldValidator`. -/
def requiredFieldValidator (v : GoValue) (failSilently : Bool) : Run :=
  match v with
  | .nil => throwErr (newValidationError "required field cannot be empty" failSilently)
  | _ => Run.done

/-- The function `getValidatorMap`: the registry, from rule name to rule function. -/
def getValidatorMap (U : Nat → Bool) : List (String × (GoValue → Bool → Run)) :=
  [ ("required", requiredFieldValidator),
    ("positiveNumberField", positiveNumberFieldValidator),
    ("nameField", nameFieldValidator),
    ("alwaysTrueField", alwaysTrueValidator),
    ("slugField", slugFieldValidator U) ]

/-- The type `FieldValidator`. -/
structure FieldValidator where
  model : GoValue
  failSilently : Bool

/-- The body of the innermost loop of `Validate` for one `splittedTag`: the
registry lookup, `log.Fatalf` when it fails, else the call of the rule on
`fieldValue.Interface()`. -/
def validateSplittedTag (U : Nat → Bool) (k : String)
    (fieldValue : Option (StructField GoValue)) (failSilently : Bool)
    (splittedTag : String) : Run :=
  (Run.emit (.lookup k splittedTag)).andThen <|
    match (getValidatorMap U).lookup splittedTag with
    | none => Run.stop (.fatal ("Unknown tag: " ++ splittedTag))
    | some validatorFunc =>
      match Interface U fieldValue with
      | .error p => Run.stop (.panic p)
      | .ok v => (Run.emit (.invoke k splittedTag)).andThen (validatorFunc v failSilently)

/-- The loop `for _, splittedTag := range splittedTags`. -/
def rangeSplittedTags (U : Nat → Bool) (k : String)
    (fieldValue : Option (StructField GoValue)) (failSilently : Bool) :
    List String → Run
  | [] => Run.done
  | splittedTag :: rest =>
    (validateSplittedTag U k fieldValue failSilently splittedTag).andThen
      (rangeSplittedTags U k fieldValue failSilently rest)

/-- The loop `for _, tag := range v`, splitting each tag on `","`. -/
def rangeTags (U : Nat → Bool) (k : String)
    (fieldValue : Option (StructField GoValue)) (failSilently : Bool) :
    List String → Run
  | [] => Run.done
  | tag :: rest =>
    (rangeSplittedTags U k fieldValue failSilently (Split tag ',')).andThen
      (rangeTags U k fieldValue failSilently rest)

/-- The loop `for k, v := range tags` over the entries in the order given. -/
def rangeFields (U : Nat → Bool) (rv : GoValue) (failSilently : Bool) :
    FieldTagMap → Run
  | [] => Run.done
  | (k, v) :: rest =>
    (rangeTags U k (FieldByName rv k) failSilently v).andThen
      (rangeFields U rv failSilently rest)

/-- The method `FieldValidator.Validate`.  `order` is the order in which the
`range` over the map visits its entries. -/
def Validate (U : Nat → Bool) (validator : FieldValidator)
    (order : FieldTagMap → FieldTagMap) : Run :=
  let rv := validator.model
  if rv.Kind ≠ Kind.struct then
    Run.stop (.panic (.logPanicf ("Non struct types can not validate: " ++ rv.Kind.toStr)))
  else
    match GetFieldAndTagNames validator.model with
    | .error p => Run.stop (.panic p)
    | .ok tags =>
      (rangeFields U rv validator.failSilently (order tags)).andThen Run.done

/-- An iteration order of a map: it visits every entry exactly once. -/
def IsRangeOrder (order : FieldTagMap → FieldTagMap) : Prop :=
  ∀ m, (order m).Perm m

/-! ## The demo program -/

/-- The tags of the struct type `Product`. -/
def productTag (json validate : String) : StructTag :=
  [("json", json), ("validate", validate)]

/-- The fields of a value of the struct type `Product`. -/
def productFields (ProductID : Int) (ProductName : String) (Quantity : Int)
    (IsActive : Bool) (Slug : String) : List (StructField GoValue) :=
  [ ⟨"ProductID", productTag "productId" "required,positiveNumberField", .int ProductID⟩,
    ⟨"ProductName", productTag "productName" "nameField", .string ProductName⟩,
    ⟨"Quantity", productTag "quantity" "positiveNumberField", .int Quantity⟩,
    ⟨"IsActive", productTag "isActive" "alwaysTrueField", .bool IsActive⟩,
    ⟨"Slug", productTag "slug" "slugField", .string Slug⟩ ]

/-- A value of the struct type `Product`. -/
def Product (ProductID : Int) (ProductName : String) (Quantity : Int)
    (IsActive : Bool) (Slug : String) : GoValue :=
  .struct (productFields ProductID ProductName Quantity IsActive Slug)

/-- A range table for runs in which every rune is Latin-1, where the table is
never consulted. -/
def latin1Only : Nat → Bool := fun _ => false

/-- The fields of the value `struct{ name string }{"a b"}` whose one field,
unexported, is tagged `validate:"nameField"`. -/
def unexportedNameFields : List (StructField GoValue) :=
  [ ⟨"name", [("validate", "nameField")], .string "a b"⟩ ]

/-- The validator built in `main`: the demo product, silent. -/
def mainValidator : FieldValidator :=
  { model := Product 1 "TestProduct" 1 true "test", failSilently := true }

/-! ## Notions used to state the properties -/

/-- Whether an event is a line of `log.Println`. -/
def Event.isLogged : Event → Bool
  | .logged _ => true
  | _ => false

/-- Whether a run raised a violation: `throwError` was reached, so either a
line was written by `log.Println` (silent) or the run ended in the panic of
`log.Panicln` (strict). -/
def Run.raised (r : Run) : Bool :=
  r.trace.any Event.isLogged ||
    (match r.outcome with
     | .panic (.logPanicln _) => true
     | _ => false)

/-- What a rule function does when it raises a violation with message `msg`:
one logged line and a normal return when silent, the panic of `log.Panicln`
when strict. -/
def violationRun (msg : String) (failSilently : Bool) : Run :=
  if failSilently then ⟨[.logged msg], .returned⟩
  else ⟨[], .panic (.logPanicln ⟨msg, false⟩)⟩

/-- The text of a `log.Println` line, if the event is one. -/
def Event.loggedMsg : Event → Option String
  | .logged msg => some msg
  | _ => none

/-- The events before the first `log.Println` line of a trace, and the text of
that line; `none` when the trace has no such line. -/
def cutAtLogged : List Event → Option (List Event × String)
  | [] => none
  | e :: es =>
    match e.loggedMsg with
    | some msg => some ([], msg)
    | none => (cutAtLogged es).map (fun p => (e :: p.1, p.2))

/-- The run cut at its first silenced violation: it ends there in the panic of
`log.Panicln`; a run without a logged line is unchanged. -/
def strictOf (s : Run) : Run :=
  match cutAtLogged s.trace with
  | none => s
  | some (pre, msg) => ⟨pre, .panic (.logPanicln ⟨msg, false⟩)⟩

/-- A run in which a lookup of an unregistered name is the last thing that
happens, ending in `log.Fatalf` with the text naming it. -/
def StopsAtUnknown (U : Nat → Bool) (r : Run) : Prop :=
  ∀ k name, (getValidatorMap U).lookup name = none →
    Event.lookup k name ∈ r.trace →
    r.outcome = .fatal ("Unknown tag: " ++ name) ∧
      ∃ pre, r.trace = pre ++ [Event.lookup k name]

/-- The rule names of a field: its `validate` tag split on `","`. -/
def ruleNames (f : StructField GoValue) : List String :=
  Split (f.Tag.Get "validate") ','

/-- Whether `t` is a registered rule name and `v` has the dynamic type the
rule function registered under `t` asserts (`required` asserts none). -/
def ruleAccepts (t : String) (v : GoValue) : Bool :=
  if t = "required" then true
  else if t = "positiveNumberField" then
    (match v with | .int _ => true | _ => false)
  else if t = "nameField" then
    (match v with | .string _ => true | _ => false)
  else if t = "alwaysTrueField" then
    (match v with | .bool _ => true | _ => false)
  else if t = "slugField" then
    (match v with | .string _ => true | _ => false)
  else false

/-- The events of one completed check of rule `t` on field `f` in silent mode:
the lookup, the call, and what the rule function logs. -/
def checkSteps (U : Nat → Bool) (f : StructField GoValue) (t : String) : List Event :=
  match (getValidatorMap U).lookup t with
  | none => [.lookup f.Name t]
  | some rule => .lookup f.Name t :: .invoke f.Name t :: (rule f.value true).trace

/-- The events of checking all rules of field `f` in silent mode, in tag order. -/
def fieldSteps (U : Nat → Bool) (f : StructField GoValue) : List Event :=
  (ruleNames f).flatMap (checkSteps U f)

/-- The schema of a field: what its struct type declares, without the value. -/
def schema (f : StructField GoValue) : String × StructTag :=
  (f.Name, f.Tag)

/-- The fields of the value `struct{ _ int; _ string }{}` with two blank
fields, the second one tagged `validate:"required"`. -/
def blankFields : List (StructField GoValue) :=
  [ ⟨"_", [], .int 0⟩, ⟨"_", [("validate", "required")], .string ""⟩ ]

/-- The fields of the value `struct{ A string }{"abc"}` whose field is tagged
`validate:"positiveNumberField"`. -/
def stringAsNumberFields : List (StructField GoValue) :=
  [ ⟨"A", [("validate", "positiveNumberField")], .string "abc"⟩ ]

/-- The rule name of a rule-call event. -/
def Event.invokedTag : Event → Option String
  | .invoke _ tag => some tag
  | _ => none

/-- The rule name of a registry-lookup event. -/
def Event.lookedUpTag : Event → Option String
  | .lookup _ tag => some tag
  | _ => none

/-- The tag written `r1,...,rn` for the rule names `r1`, ..., `rn`. -/
def joinTag : List String → String
  | [] => ""
  | [r] => r
  | r :: rs => r ++ "," ++ joinTag rs

/-- The fields of the value `struct{ a int }{1}` whose one field, unexported,
is tagged `validate:"required,"`. -/
def unexportedTrailingCommaFields : List (StructField GoValue) :=
  [ ⟨"a", [("validate", "required,")], .int 1⟩ ]

/-- The fields of the value `struct{ A int }{1}` with the given `validate` tag. -/
def taggedIntFields (tag : String) : List (StructField GoValue) :=
  [ ⟨"A", [("validate", tag)], .int 1⟩ ]

/-- The text of `fmt.Sprintln(err)` for a `ValidationError` whose member `err`
holds the error value that `errors.New` allocated at address `addr`.  The type
has no `Error` or `String` method and its members are unexported, so `%v`
prints the members between braces: the error as the pointer it holds, the flag
as `true` or `false`.  This is the line `log.Panicln(err)` logs and the value
it panics with. -/
def Sprintln (addr : Nat) (err : ValidationError) : String :=
  "\x7b0x" ++ String.mk (Nat.toDigits 16 addr) ++ " " ++ toString err.isSilent ++ "\x7d\n"

/-- The message of a run that ended in `log.Panicln(err)`, for the address
`addr` of the error held by `err`; `none` for a run that ended otherwise. -/
def violationMessage (addr : Nat) (r : Run) : Option String :=
  match r.outcome with
  | .panic (.logPanicln err) => some (Sprintln addr err)
  | _ => none

/-- A run that ended in a rule violation in strict mode: its last event is the
call of the rule registered under `t` on field `k`, and it ended in
`log.Panicln(e)`. -/
def ViolationAt (r : Run) (k t : String) (e : ValidationError) : Prop :=
  r.outcome = .panic (.logPanicln e) ∧ ∃ pre, r.trace = pre ++ [Event.invoke k t]

/-- A run that, when it ends in `log.Panicln(e)`, does so right after the call
of a registered rule, whose function made `e`. -/
def EndsAtRuleCall (U : Nat → Bool) (r : Run) : Prop :=
  ∀ e, r.outcome = .panic (.logPanicln e) →
    ∃ (pre : List Event) (k t : String) (rule : GoValue → Bool → Run) (v : GoValue)
      (failSilently : Bool),
      r.trace = pre ++ [Event.invoke k t] ∧
      (getValidatorMap U).lookup t = some rule ∧
      (rule v failSilently).outcome = .panic (.logPanicln e)

/-! ## Sequencing -/

theorem Run.andThen_returned {r : Run} (k : Run) (h : r.outcome = .returned) :
    r.andThen k = ⟨r.trace ++ k.trace, k.outcome⟩ := by
  simp [Run.andThen, h]

theorem Run.andThen_stopped {r : Run} (k : Run) (h : r.outcome ≠ .returned) :
    r.andThen k = r := by
  unfold Run.andThen
  split
  · contradiction
  · rfl

theorem Run.andThen_done (r : Run) : r.andThen Run.done = r := by
  by_cases h : r.outcome = .returned
  · rw [Run.andThen_returned _ h]
    cases r
    simp_all [Run.done]
  · exact Run.andThen_stopped _ h

theorem throwErr_eq (msg : String) (failSilently : Bool) :
    throwErr (newValidationError msg failSilently) = violationRun msg failSilently := by
  cases failSilently <;> rfl

theorem violationRun_raised (msg : String) (failSilently : Bool) :
    (violationRun msg failSilently).raised = true := by
  cases failSilently <;> rfl

/-! ## The rule functions -/

theorem Split_length_pos (s : String) (sep : Char) : 0 < (Split s sep).length := by
  have h : ∀ cs : List Char, 0 < (splitRunes sep cs).length := by
    intro cs
    induction cs with
    | nil => simp [splitRunes]
    | cons c cs ih =>
      unfold splitRunes
      split
      · simp
      · split <;> simp
  simpa [Split] using h s.data

theorem hasUpperLoop_iff (U : Nat → Bool) (cs : List Char) :
    hasUpperLoop U cs = true ↔ ∃ c ∈ cs, IsUpper U c = true := by
  induction cs with
  | nil => simp [hasUpperLoop]
  | cons c cs ih =>
    unfold hasUpperLoop
    by_cases h : IsUpper U c = true
    · simp [h]
    · simp [h, ih]

/-- Claim C6. For every integer `n` and either silence flag,
`positiveNumberFieldValidator` raises a violation if and only if `n < 0`
(so `0` raises none); the violation is one logged line and a normal return
when silent, and the panic of `log.Panicln` when strict. -/
theorem C6_positiveNumberField_violation_iff_negative (n : Int) (failSilently : Bool) :
    ((positiveNumberFieldValidator (.int n) failSilently).raised = true ↔ n < 0) ∧
    positiveNumberFieldValidator (.int n) failSilently =
      (if n < 0 then
        violationRun "positive number field must greater then zero" failSilently
       else Run.done) ∧
    (positiveNumberFieldValidator (.int 0) failSilently).raised = false := by
  refine ⟨?_, ?_, ?_⟩
  · by_cases h : n < 0
    · simp [positiveNumberFieldValidator, h, throwErr_eq, violationRun_raised]
    · simp [positiveNumberFieldValidator, h, Run.done, Run.raised]
  · by_cases h : n < 0 <;> simp [positiveNumberFieldValidator, h, throwErr_eq]
  · simp [positiveNumberFieldValidator, Run.done, Run.raised]

/-- Claim C7. For every string `s` and either silence flag,
`nameFieldValidator` raises a violation if and only if `s` split on single
spaces yields fewer than two pieces. -/
theorem C7_nameField_violation_iff_fewer_than_two_tokens (s : String)
    (failSilently : Bool) :
    ((nameFieldValidator (.string s) failSilently).raised = true ↔
      (Split s ' ').length < 2) ∧
    nameFieldValidator (.string s) failSilently =
      (if (Split s ' ').length < 2 then
        violationRun "name field must be minimum 2 words" failSilently
       else Run.done) := by
  have hpos := Split_length_pos s ' '
  have hiff : (Split s ' ').length = 1 ↔ (Split s ' ').length < 2 := by omega
  refine ⟨?_, ?_⟩
  · by_cases h : (Split s ' ').length = 1
    · simp [nameFieldValidator, h, throwErr_eq, violationRun_raised]
    · have h2 : ¬ (Split s ' ').length < 2 := fun h' => h (hiff.2 h')
      simp [nameFieldValidator, h, h2, Run.done, Run.raised]
  · by_cases h : (Split s ' ').length = 1
    · simp [nameFieldValidator, h, throwErr_eq]
    · have h2 : ¬ (Split s ' ').length < 2 := fun h' => h (hiff.2 h')
      simp [nameFieldValidator, h, h2]

/-- Claim C8. For every string `s` and either silence flag,
`slugFieldValidator` raises a violation if and only if some rune of `s`
satisfies `unicode.IsUpper`; the empty string passes, and so does every string
whose runes are all ASCII and none of `A`-`Z`, such as a string of digits and
punctuation. -/
theorem C8_slugField_violation_iff_some_upper (U : Nat → Bool) (s : String)
    (failSilently : Bool) :
    ((slugFieldValidator U (.string s) failSilently).raised = true ↔
      ∃ c ∈ s.data, IsUpper U c = true) ∧
    (slugFieldValidator U (.string "") failSilently).raised = false ∧
    ((∀ c ∈ s.data, c.toNat < 0x41 ∨ (0x5B ≤ c.toNat ∧ c.toNat ≤ 0x7E)) →
      (slugFieldValidator U (.string s) failSilently).raised = false) := by
  have key : ∀ t : String,
      ((slugFieldValidator U (.string t) failSilently).raised = true ↔
        ∃ c ∈ t.data, IsUpper U c = true) := by
    intro t
    by_cases h : hasUpperLoop U t.data = true
    · have h' := (hasUpperLoop_iff U t.data).1 h
      simp only [slugFieldValidator, h, if_true, throwErr_eq, violationRun_raised, true_iff]
      exact h'
    · have h' : ¬ ∃ c ∈ t.data, IsUpper U c = true := fun hc => h ((hasUpperLoop_iff U t.data).2 hc)
      simp only [Bool.not_eq_true] at h
      simp only [slugFieldValidator, h, Run.done, Run.raised]
      simpa using h'
  refine ⟨key s, ?_, ?_⟩
  · cases hr : (slugFieldValidator U (.string "") failSilently).raised
    · rfl
    · obtain ⟨c, hc, _⟩ := (key "").1 hr
      simp at hc
  · intro hs
    cases hr : (slugFieldValidator U (.string s) failSilently).raised
    · rfl
    · obtain ⟨c, hc, hu⟩ := (key s).1 hr
      have hc' := hs c hc
      unfold IsUpper latin1Upper at hu
      rcases hc' with h1 | ⟨h1, h2⟩
      · have : c.toNat ≤ 0xFF := by omega
        simp only [this, if_true] at hu
        simp at hu
        omega
      · have : c.toNat ≤ 0xFF := by omega
        simp only [this, if_true] at hu
        simp at hu
        omega

/-- Claim C9. For every boolean `b` and either silence flag,
`alwaysTrueValidator` raises a violation if and only if `b` is `false`. -/
theorem C9_alwaysTrue_violation_iff_false (b : Bool) (failSilently : Bool) :
    ((alwaysTrueValidator (.bool b) failSilently).raised = true ↔ b = false) ∧
    alwaysTrueValidator (.bool b) failSilently =
      (if b = false then violationRun "always true field must be true" failSilently
       else Run.done) := by
  cases b
  · simp [alwaysTrueValidator, throwErr_eq, violationRun_raised]
  · simp [alwaysTrueValidator, Run.done, Run.raised]

/-- Claim C10, as amended. For every value `v` handed to
`requiredFieldValidator` and either silence flag, a violation is raised if and
only if `v` is the nil interface value (an `any` holding no dynamic type), and
the run never ends in the panic of a failed type assertion. -/
theorem C10_required_violation_iff_nil_interface (v : GoValue) (failSilently : Bool) :
    ((requiredFieldValidator v failSilently).raised = true ↔ v = GoValue.nil) ∧
    (∀ want, (requiredFieldValidator v failSilently).outcome ≠
      .panic (.interfaceConversion want)) := by
  cases v <;> cases failSilently <;>
    simp [requiredFieldValidator, throwErr_eq, violationRun, Run.done, Run.raised,
      Event.isLogged]

/-- Claim C10 as stated fails: a nil pointer, the nil sentinel of its pointer
type, is handed to `requiredFieldValidator` boxed in a non-nil interface value,
and no violation is raised in either mode. -/
theorem C10_counterexample :
    requiredFieldValidator (.ptr none) true = ⟨[], .returned⟩ ∧
    requiredFieldValidator (.ptr none) false = ⟨[], .returned⟩ ∧
    (requiredFieldValidator (.ptr none) true).raised = false ∧
    (requiredFieldValidator (.ptr none) false).raised = false :=
  ⟨rfl, rfl, rfl, rfl⟩

/-! ## The registry -/

/-- The five registered rule names. -/
theorem getValidatorMap_lookup (U : Nat → Bool) (t : String) :
    (getValidatorMap U).lookup t =
      if t = "required" then some requiredFieldValidator
      else if t = "positiveNumberField" then some positiveNumberFieldValidator
      else if t = "nameField" then some nameFieldValidator
      else if t = "alwaysTrueField" then some alwaysTrueValidator
      else if t = "slugField" then some (slugFieldValidator U)
      else none := by
  unfold getValidatorMap
  by_cases h1 : t = "required"
  · subst h1; rfl
  by_cases h2 : t = "positiveNumberField"
  · subst h2; rfl
  by_cases h3 : t = "nameField"
  · subst h3; rfl
  by_cases h4 : t = "alwaysTrueField"
  · subst h4; rfl
  by_cases h5 : t = "slugField"
  · subst h5; rfl
  have e1 : (t == "required") = false := by simpa using h1
  have e2 : (t == "positiveNumberField") = false := by simpa using h2
  have e3 : (t == "nameField") = false := by simpa using h3
  have e4 : (t == "alwaysTrueField") = false := by simpa using h4
  have e5 : (t == "slugField") = false := by simpa using h5
  simp [List.lookup, e1, e2, e3, e4, e5, h1, h2, h3, h4, h5]

theorem lookup_isSome_iff (U : Nat → Bool) (t : String) :
    ((getValidatorMap U).lookup t).isSome = true ↔
      t ∈ ["required", "positiveNumberField", "nameField", "alwaysTrueField", "slugField"] := by
  rw [getValidatorMap_lookup]
  by_cases h1 : t = "required"
  · simp [h1]
  by_cases h2 : t = "positiveNumberField"
  · simp [h2]
  by_cases h3 : t = "nameField"
  · simp [h3]
  by_cases h4 : t = "alwaysTrueField"
  · simp [h4]
  by_cases h5 : t = "slugField"
  · simp [h5]
  simp [h1, h2, h3, h4, h5]

/-- A registered rule function is one of the five functions of `main.go`. -/
theorem lookup_some_cases (U : Nat → Bool) (t : String) (f : GoValue → Bool → Run)
    (h : (getValidatorMap U).lookup t = some f) :
    f = requiredFieldValidator ∨ f = positiveNumberFieldValidator ∨
    f = nameFieldValidator ∨ f = alwaysTrueValidator ∨ f = slugFieldValidator U := by
  rw [getValidatorMap_lookup] at h
  split_ifs at h <;> simp_all

/-- A rule function, on a given value, either returns without an event, or
raises a violation, or panics on its type assertion; which one does not depend
on the silence flag. -/
theorem rule_run_cases (U : Nat → Bool) (t : String) (f : GoValue → Bool → Run)
    (h : (getValidatorMap U).lookup t = some f) (v : GoValue) :
    (∀ failSilently, f v failSilently = Run.done) ∨
    (∃ msg, ∀ failSilently, f v failSilently = violationRun msg failSilently) ∨
    (∃ want, ∀ failSilently,
      f v failSilently = Run.stop (.panic (.interfaceConversion want))) := by
  have hV : ∀ msg, (∀ failSilently, f v failSilently = violationRun msg failSilently) →
      (∀ failSilently, f v failSilently = Run.done) ∨
      (∃ msg, ∀ failSilently, f v failSilently = violationRun msg failSilently) ∨
      (∃ want, ∀ failSilently,
        f v failSilently = Run.stop (.panic (.interfaceConversion want))) :=
    fun msg hm => Or.inr (Or.inl ⟨msg, hm⟩)
  have hP : ∀ want, (∀ failSilently,
        f v failSilently = Run.stop (.panic (.interfaceConversion want))) →
      (∀ failSilently, f v failSilently = Run.done) ∨
      (∃ msg, ∀ failSilently, f v failSilently = violationRun msg failSilently) ∨
      (∃ want, ∀ failSilently,
        f v failSilently = Run.stop (.panic (.interfaceConversion want))) :=
    fun want hm => Or.inr (Or.inr ⟨want, hm⟩)
  rcases lookup_some_cases U t f h with rfl | rfl | rfl | rfl | rfl
  · cases v with
    | nil =>
      exact hV "required field cannot be empty"
        (by intro fs; simp [requiredFieldValidator, throwErr_eq])
    | _ => exact Or.inl (fun _ => rfl)
  · cases v with
    | int n =>
      by_cases hn : n < 0
      · exact hV "positive number field must greater then zero"
          (by intro fs; simp [positiveNumberFieldValidator, hn, throwErr_eq])
      · exact Or.inl (by intro fs; simp [positiveNumberFieldValidator, hn])
    | _ => exact hP "int" (fun _ => rfl)
  · cases v with
    | string s =>
      by_cases hn : (Split s ' ').length = 1
      · exact hV "name field must be minimum 2 words"
          (by intro fs; simp [nameFieldValidator, hn, throwErr_eq])
      · exact Or.inl (by intro fs; simp [nameFieldValidator, hn])
    | _ => exact hP "string" (fun _ => rfl)
  · cases v with
    | bool b =>
      cases b
      · exact hV "always true field must be true"
          (by intro fs; simp [alwaysTrueValidator, throwErr_eq])
      · exact Or.inl (fun _ => rfl)
    | _ => exact hP "bool" (fun _ => rfl)
  · cases v with
    | string s =>
      by_cases hn : hasUpperLoop U s.data = true
      · exact hV "slug field must contains lowercase letters"
          (by intro fs; simp [slugFieldValidator, hn, throwErr_eq])
      · exact Or.inl (by intro fs; simp [slugFieldValidator, hn])
    | _ => exact hP "string" (fun _ => rfl)

/-- Claim C3. For every model whose kind is not `struct` and either silence
flag, `Validate` panics through `log.Panicf` with the text naming the kind, and
nothing has happened before: no lookup, no rule call, no logged line. -/
theorem C3_non_struct_model_panics (U : Nat → Bool) (model : GoValue)
    (failSilently : Bool) (order : FieldTagMap → FieldTagMap)
    (h : model.Kind ≠ Kind.struct) :
    Validate U ⟨model, failSilently⟩ order =
      ⟨[], .panic (.logPanicf
        ("Non struct types can not validate: " ++ model.Kind.toStr))⟩ := by
  simp [Validate, h, Run.stop]

/-- Claim C3 at the bare integer 5 (silent), a string (strict) and a slice. -/
theorem C3_non_struct_model_panics_witness :
    (GoValue.int 5).Kind ≠ Kind.struct ∧
    Validate (fun _ => false) ⟨.int 5, true⟩ id =
      ⟨[], .panic (.logPanicf "Non struct types can not validate: int")⟩ ∧
    Validate (fun _ => false) ⟨.string "abc", false⟩ id =
      ⟨[], .panic (.logPanicf "Non struct types can not validate: string")⟩ ∧
    Validate (fun _ => false) ⟨.other .slice, true⟩ id =
      ⟨[], .panic (.logPanicf "Non struct types can not validate: slice")⟩ :=
  ⟨by decide,
    C3_non_struct_model_panics (fun _ => false) (.int 5) true id (by decide),
    C3_non_struct_model_panics (fun _ => false) (.string "abc") false id (by decide),
    C3_non_struct_model_panics (fun _ => false) (.other .slice) true id (by decide)⟩

/-! ## Unknown rule names -/

theorem StopsAtUnknown.of_no_lookup (U : Nat → Bool) (r : Run)
    (h : ∀ k name, Event.lookup k name ∉ r.trace) : StopsAtUnknown U r :=
  fun k name _ hm => absurd hm (h k name)

theorem StopsAtUnknown.andThen {U : Nat → Bool} {a b : Run}
    (ha : StopsAtUnknown U a) (hb : StopsAtUnknown U b) :
    StopsAtUnknown U (a.andThen b) := by
  intro k name hn hmem
  by_cases h : a.outcome = .returned
  · rw [Run.andThen_returned _ h] at hmem ⊢
    simp only [List.mem_append] at hmem
    rcases hmem with hm | hm
    · have h1 := (ha k name hn hm).1
      rw [h] at h1
      cases h1
    · obtain ⟨ho, pre, hl⟩ := hb k name hn hm
      refine ⟨ho, a.trace ++ pre, ?_⟩
      simp [hl]
  · rw [Run.andThen_stopped _ h] at hmem ⊢
    exact ha k name hn hmem

theorem rule_run_StopsAtUnknown (U : Nat → Bool) (t : String)
    (f : GoValue → Bool → Run) (h : (getValidatorMap U).lookup t = some f)
    (v : GoValue) (failSilently : Bool) : StopsAtUnknown U (f v failSilently) := by
  apply StopsAtUnknown.of_no_lookup
  intro k name
  rcases rule_run_cases U t f h v with h1 | ⟨msg, h1⟩ | ⟨want, h1⟩
  · simp [h1, Run.done]
  · rw [h1]; cases failSilently <;> simp [violationRun]
  · simp [h1, Run.stop]

theorem validateSplittedTag_StopsAtUnknown (U : Nat → Bool) (k : String)
    (fieldValue : Option (StructField GoValue)) (failSilently : Bool) (t : String) :
    StopsAtUnknown U (validateSplittedTag U k fieldValue failSilently t) := by
  unfold validateSplittedTag
  cases hl : (getValidatorMap U).lookup t with
  | none =>
    intro k' name _ hmem
    simp [Run.andThen, Run.emit, Run.stop] at hmem ⊢
    obtain ⟨rfl, rfl⟩ := hmem
    exact ⟨rfl, [], rfl⟩
  | some f =>
    apply StopsAtUnknown.andThen
    · intro k' name hn hmem
      simp [Run.emit] at hmem
      obtain ⟨_, rfl⟩ := hmem
      rw [hl] at hn
      cases hn
    · cases Interface U fieldValue with
      | error p =>
        apply StopsAtUnknown.of_no_lookup
        simp [Run.stop]
      | ok v =>
        apply StopsAtUnknown.andThen
        · apply StopsAtUnknown.of_no_lookup
          simp [Run.emit]
        · exact rule_run_StopsAtUnknown U t f hl v failSilently

theorem rangeSplittedTags_StopsAtUnknown (U : Nat → Bool) (k : String)
    (fieldValue : Option (StructField GoValue)) (failSilently : Bool)
    (ts : List String) :
    StopsAtUnknown U (rangeSplittedTags U k fieldValue failSilently ts) := by
  induction ts with
  | nil => exact StopsAtUnknown.of_no_lookup U _ (by simp [rangeSplittedTags, Run.done])
  | cons t ts ih =>
    exact StopsAtUnknown.andThen (validateSplittedTag_StopsAtUnknown U k fieldValue _ t) ih

theorem rangeTags_StopsAtUnknown (U : Nat → Bool) (k : String)
    (fieldValue : Option (StructField GoValue)) (failSilently : Bool)
    (tags : List String) :
    StopsAtUnknown U (rangeTags U k fieldValue failSilently tags) := by
  induction tags with
  | nil => exact StopsAtUnknown.of_no_lookup U _ (by simp [rangeTags, Run.done])
  | cons t ts ih =>
    exact StopsAtUnknown.andThen (rangeSplittedTags_StopsAtUnknown U k fieldValue _ _) ih

theorem rangeFields_StopsAtUnknown (U : Nat → Bool) (rv : GoValue)
    (failSilently : Bool) (m : FieldTagMap) :
    StopsAtUnknown U (rangeFields U rv failSilently m) := by
  induction m with
  | nil => exact StopsAtUnknown.of_no_lookup U _ (by simp [rangeFields, Run.done])
  | cons e m ih =>
    obtain ⟨k, v⟩ := e
    exact StopsAtUnknown.andThen (rangeTags_StopsAtUnknown U k _ _ v) ih

theorem Validate_StopsAtUnknown (U : Nat → Bool) (validator : FieldValidator)
    (order : FieldTagMap → FieldTagMap) :
    StopsAtUnknown U (Validate U validator order) := by
  unfold Validate
  simp only
  split
  · exact StopsAtUnknown.of_no_lookup U _ (by simp [Run.stop])
  · split
    · exact StopsAtUnknown.of_no_lookup U _ (by simp [Run.stop])
    · rw [Run.andThen_done]
      exact rangeFields_StopsAtUnknown U _ _ _

/-- Claim C2. The registry lookup succeeds for exactly the five registered
names; and whenever a run of `Validate`, with either silence flag, looks up a
name that is not one of them, that lookup is the last event of the run and the
run ends in `log.Fatalf` with the text naming the rule. -/
theorem C2_unknown_rule_is_fatal (U : Nat → Bool) (validator : FieldValidator)
    (order : FieldTagMap → FieldTagMap) (k name : String)
    (hname : name ∉
      ["required", "positiveNumberField", "nameField", "alwaysTrueField", "slugField"])
    (hreach : Event.lookup k name ∈ (Validate U validator order).trace) :
    (Validate U validator order).outcome = .fatal ("Unknown tag: " ++ name) ∧
    (∃ pre, (Validate U validator order).trace = pre ++ [Event.lookup k name]) ∧
    (∀ t, ((getValidatorMap U).lookup t).isSome = true ↔
      t ∈ ["required", "positiveNumberField", "nameField", "alwaysTrueField",
        "slugField"]) := by
  have hnone : (getValidatorMap U).lookup name = none := by
    cases hl : (getValidatorMap U).lookup name with
    | none => rfl
    | some f =>
      exact absurd ((lookup_isSome_iff U name).1 (by simp [hl])) hname
  obtain ⟨h1, h2⟩ := Validate_StopsAtUnknown U validator order k name hnone hreach
  exact ⟨h1, h2, lookup_isSome_iff U⟩

/-! ## Strict mode as the silent run cut at its first violation -/

theorem cutAtLogged_append (a b : List Event) :
    cutAtLogged (a ++ b) =
      match cutAtLogged a with
      | some p => some p
      | none => (cutAtLogged b).map (fun p => (a ++ p.1, p.2)) := by
  induction a with
  | nil => simp [cutAtLogged]
  | cons e es ih =>
    simp only [List.cons_append, cutAtLogged]
    cases he : e.loggedMsg with
    | some msg => simp
    | none =>
      show Option.map _ (cutAtLogged (es ++ b)) = _
      rw [ih]
      cases hc : cutAtLogged es with
      | some p => simp
      | none => cases cutAtLogged b <;> simp

theorem cutAtLogged_none {l : List Event} (h : cutAtLogged l = none) :
    ∀ msg, Event.logged msg ∉ l := by
  induction l with
  | nil => simp
  | cons e es ih =>
    simp only [cutAtLogged] at h
    cases he : e.loggedMsg with
    | some msg => simp [he] at h
    | none =>
      simp only [he] at h
      cases hc : cutAtLogged es with
      | some p => simp [hc] at h
      | none =>
        intro msg hm
        rcases List.mem_cons.1 hm with rfl | hm
        · simp [Event.loggedMsg] at he
        · exact ih hc msg hm

theorem cutAtLogged_some {l pre : List Event} {msg : String}
    (h : cutAtLogged l = some (pre, msg)) : ∀ m, Event.logged m ∉ pre := by
  induction l generalizing pre with
  | nil => simp [cutAtLogged] at h
  | cons e es ih =>
    simp only [cutAtLogged] at h
    cases he : e.loggedMsg with
    | some m' =>
      simp only [he, Option.some.injEq, Prod.mk.injEq] at h
      obtain ⟨rfl, _⟩ := h
      simp
    | none =>
      simp only [he] at h
      cases hc : cutAtLogged es with
      | none => simp [hc] at h
      | some p =>
        obtain ⟨q, m'⟩ := p
        simp only [hc, Option.map_some', Option.some.injEq, Prod.mk.injEq] at h
        obtain ⟨rfl, rfl⟩ := h
        intro m hm
        rcases List.mem_cons.1 hm with rfl | hm
        · simp [Event.loggedMsg] at he
        · exact ih hc m hm

theorem cutAtLogged_of_split (pre post : List Event) (msg : String)
    (h : ∀ m, Event.logged m ∉ pre) :
    cutAtLogged (pre ++ Event.logged msg :: post) = some (pre, msg) := by
  induction pre with
  | nil => simp [cutAtLogged, Event.loggedMsg]
  | cons e es ih =>
    have he : e.loggedMsg = none := by
      cases e with
      | logged m => exact absurd (List.mem_cons_self _ _) (h m)
      | _ => rfl
    have hes : ∀ m, Event.logged m ∉ es := fun m hm => h m (List.mem_cons_of_mem _ hm)
    simp [cutAtLogged, he, ih hes]

theorem strictOf_of_no_logged (r : Run) (h : cutAtLogged r.trace = none) :
    strictOf r = r := by
  simp [strictOf, h]

theorem strictOf_andThen (a b : Run) :
    strictOf (a.andThen b) = (strictOf a).andThen (strictOf b) := by
  by_cases h : a.outcome = .returned
  · rw [Run.andThen_returned _ h]
    cases ha : cutAtLogged a.trace with
    | none =>
      rw [strictOf_of_no_logged a ha, Run.andThen_returned _ h]
      cases hb : cutAtLogged b.trace with
      | none =>
        rw [strictOf_of_no_logged b hb]
        apply strictOf_of_no_logged
        simp [cutAtLogged_append, ha, hb]
      | some p =>
        obtain ⟨pre, msg⟩ := p
        simp [strictOf, cutAtLogged_append, ha, hb]
    | some p =>
      obtain ⟨pre, msg⟩ := p
      have hs : strictOf a = ⟨pre, .panic (.logPanicln ⟨msg, false⟩)⟩ := by
        simp [strictOf, ha]
      rw [hs, Run.andThen_stopped _ (by simp)]
      simp [strictOf, cutAtLogged_append, ha]
  · rw [Run.andThen_stopped _ h]
    have hs : (strictOf a).outcome ≠ .returned := by
      unfold strictOf
      cases ha : cutAtLogged a.trace with
      | none => simpa using h
      | some p => simp
    rw [Run.andThen_stopped _ hs]

theorem strictOf_violationRun (msg : String) :
    strictOf (violationRun msg true) = violationRun msg false := by
  simp [strictOf, violationRun, cutAtLogged, Event.loggedMsg]

theorem rule_run_strict (U : Nat → Bool) (t : String) (f : GoValue → Bool → Run)
    (h : (getValidatorMap U).lookup t = some f) (v : GoValue) :
    f v false = strictOf (f v true) := by
  rcases rule_run_cases U t f h v with h1 | ⟨msg, h1⟩ | ⟨want, h1⟩
  · rw [h1, h1]; rfl
  · rw [h1, h1, strictOf_violationRun]
  · rw [h1, h1]; rfl

theorem validateSplittedTag_strict (U : Nat → Bool) (k : String)
    (fieldValue : Option (StructField GoValue)) (t : String) :
    validateSplittedTag U k fieldValue false t =
      strictOf (validateSplittedTag U k fieldValue true t) := by
  unfold validateSplittedTag
  rw [strictOf_andThen]
  have he : ∀ e : Event, e.loggedMsg = none → strictOf (Run.emit e) = Run.emit e := by
    intro e he
    simp [strictOf, Run.emit, cutAtLogged, he]
  rw [he (.lookup k t) rfl]
  congr 1
  cases hl : (getValidatorMap U).lookup t with
  | none => rfl
  | some f =>
    cases Interface U fieldValue with
    | error p => rfl
    | ok v =>
      simp only
      rw [strictOf_andThen, he (.invoke k t) rfl, rule_run_strict U t f hl v]

theorem rangeSplittedTags_strict (U : Nat → Bool) (k : String)
    (fieldValue : Option (StructField GoValue)) (ts : List String) :
    rangeSplittedTags U k fieldValue false ts =
      strictOf (rangeSplittedTags U k fieldValue true ts) := by
  induction ts with
  | nil => rfl
  | cons t ts ih =>
    simp only [rangeSplittedTags]
    rw [strictOf_andThen, ← ih, ← validateSplittedTag_strict]

theorem rangeTags_strict (U : Nat → Bool) (k : String)
    (fieldValue : Option (StructField GoValue)) (tags : List String) :
    rangeTags U k fieldValue false tags =
      strictOf (rangeTags U k fieldValue true tags) := by
  induction tags with
  | nil => rfl
  | cons t ts ih =>
    simp only [rangeTags]
    rw [strictOf_andThen, ← ih, ← rangeSplittedTags_strict]

theorem rangeFields_strict (U : Nat → Bool) (rv : GoValue) (m : FieldTagMap) :
    rangeFields U rv false m = strictOf (rangeFields U rv true m) := by
  induction m with
  | nil => rfl
  | cons e m ih =>
    obtain ⟨k, v⟩ := e
    simp only [rangeFields]
    rw [strictOf_andThen, ← ih, ← rangeTags_strict]

/-- The strict run of `Validate` is the silent run cut at its first logged
violation. -/
theorem Validate_strict (U : Nat → Bool) (model : GoValue)
    (order : FieldTagMap → FieldTagMap) :
    Validate U ⟨model, false⟩ order = strictOf (Validate U ⟨model, true⟩ order) := by
  unfold Validate
  simp only
  split
  · rfl
  · split
    · rfl
    · rw [Run.andThen_done, Run.andThen_done, rangeFields_strict]

/-- Claim C4. In strict mode, for every model and every iteration order, no
line is logged as a silenced violation; and the run stops at the first
violation of the iteration: when the silent run over the same order logs its
first violation after the events `pre` (the lookups and rule calls up to the
violated rule), the strict run consists of exactly `pre` and ends in the panic
of `log.Panicln` for that violation, so nothing later is looked up or called. -/
theorem C4_strict_stops_at_first_violation (U : Nat → Bool) (model : GoValue)
    (order : FieldTagMap → FieldTagMap) :
    (∀ msg, Event.logged msg ∉ (Validate U ⟨model, false⟩ order).trace) ∧
    (∀ pre msg post,
      (Validate U ⟨model, true⟩ order).trace = pre ++ Event.logged msg :: post →
      (∀ m, Event.logged m ∉ pre) →
      Validate U ⟨model, false⟩ order =
        ⟨pre, .panic (.logPanicln ⟨msg, false⟩)⟩) := by
  rw [Validate_strict]
  refine ⟨?_, ?_⟩
  · intro msg
    unfold strictOf
    cases hc : cutAtLogged (Validate U ⟨model, true⟩ order).trace with
    | none => exact cutAtLogged_none hc msg
    | some p =>
      obtain ⟨pre, m⟩ := p
      exact cutAtLogged_some hc msg
  · intro pre msg post htrace hpre
    have hc := cutAtLogged_of_split pre post msg hpre
    rw [← htrace] at hc
    simp [strictOf, hc]

/-! ## Fields without a `validate` tag -/

/-- A field-tag map all of whose entries hold a non-empty list of empty tags. -/
theorem mapAppend_empty_tags (m : FieldTagMap) (field : String)
    (h : ∀ e ∈ m, e.2 ≠ [] ∧ ∀ t ∈ e.2, t = "") :
    mapAppend m field "" ≠ [] ∧
      ∀ e ∈ mapAppend m field "", e.2 ≠ [] ∧ ∀ t ∈ e.2, t = "" := by
  induction m with
  | nil => simp [mapAppend]
  | cons e m ih =>
    obtain ⟨k, tags⟩ := e
    have he := h (k, tags) (List.mem_cons_self _ _)
    have hm : ∀ e ∈ m, e.2 ≠ [] ∧ ∀ t ∈ e.2, t = "" :=
      fun e' he' => h e' (List.mem_cons_of_mem _ he')
    unfold mapAppend
    split
    · refine ⟨by simp, ?_⟩
      intro e' he'
      rcases List.mem_cons.1 he' with rfl | he'
      · refine ⟨by simp, ?_⟩
        intro t ht
        rcases List.mem_append.1 ht with ht | ht
        · exact he.2 t ht
        · simpa using ht
      · exact hm e' he'
    · refine ⟨by simp, ?_⟩
      intro e' he'
      rcases List.mem_cons.1 he' with rfl | he'
      · exact he
      · exact (ih hm).2 e' he'

theorem foldl_empty_tags (fs : List (StructField GoValue)) (acc : FieldTagMap)
    (hfs : ∀ f ∈ fs, f.Tag.Get "validate" = "")
    (hacc : ∀ e ∈ acc, e.2 ≠ [] ∧ ∀ t ∈ e.2, t = "")
    (hne : fs ≠ [] ∨ acc ≠ []) :
    fs.foldl (fun fieldsAndTags f =>
        mapAppend fieldsAndTags f.Name (f.Tag.Get "validate")) acc ≠ [] ∧
      ∀ e ∈ fs.foldl (fun fieldsAndTags f =>
        mapAppend fieldsAndTags f.Name (f.Tag.Get "validate")) acc,
        e.2 ≠ [] ∧ ∀ t ∈ e.2, t = "" := by
  induction fs generalizing acc with
  | nil =>
    simp only [List.foldl_nil]
    exact ⟨by simpa using hne, hacc⟩
  | cons f fs ih =>
    simp only [List.foldl_cons]
    have hf := hfs f (List.mem_cons_self _ _)
    have h1 := mapAppend_empty_tags acc f.Name hacc
    rw [hf]
    exact ih _ (fun g hg => hfs g (List.mem_cons_of_mem _ hg)) h1.2 (Or.inr h1.1)

theorem validateSplittedTag_empty (U : Nat → Bool) (k : String)
    (fieldValue : Option (StructField GoValue)) (failSilently : Bool) :
    validateSplittedTag U k fieldValue failSilently "" =
      ⟨[.lookup k ""], .fatal ("Unknown tag: " ++ "")⟩ := by
  have h : (getValidatorMap U).lookup "" = none := by
    rw [getValidatorMap_lookup, if_neg (by decide), if_neg (by decide), if_neg (by decide),
      if_neg (by decide), if_neg (by decide)]
  simp [validateSplittedTag, h, Run.andThen, Run.emit, Run.stop]

/-- A struct without fields validates: the map is empty and the loop body
never runs. -/
theorem Validate_no_fields (U : Nat → Bool) (failSilently : Bool)
    (order : FieldTagMap → FieldTagMap) (hO : IsRangeOrder order) :
    Validate U ⟨.struct [], failSilently⟩ order = ⟨[], .returned⟩ := by
  have h : order [] = [] := List.Perm.eq_nil (hO [])
  simp [Validate, GoValue.Kind, GetFieldAndTagNames, Indirect, h, rangeFields, Run.andThen,
    Run.done]

/-- Claim C1 fails on the code: for every struct with at least one field and
no `validate` tag on any field, for either silence flag and every iteration
order, `Validate` does not return: the empty tag is split into the single
rule name `""`, its lookup fails, and the run ends in `log.Fatalf` with the
text `Unknown tag: ` before any rule is called. -/
theorem C1_untagged_field_is_fatal (U : Nat → Bool)
    (fields : List (StructField GoValue)) (failSilently : Bool)
    (order : FieldTagMap → FieldTagMap) (hO : IsRangeOrder order)
    (hne : fields ≠ []) (hno : ∀ f ∈ fields, f.Tag.Get "validate" = "") :
    ∃ k, Validate U ⟨.struct fields, failSilently⟩ order =
      ⟨[.lookup k ""], .fatal "Unknown tag: "⟩ := by
  have hinv := foldl_empty_tags fields [] hno (by simp) (Or.inl hne)
  have hperm := hO (fields.foldl (fun fieldsAndTags f =>
        mapAppend fieldsAndTags f.Name (f.Tag.Get "validate")) [])
  cases hord : order (fields.foldl (fun fieldsAndTags f =>
        mapAppend fieldsAndTags f.Name (f.Tag.Get "validate")) []) with
  | nil =>
    rw [hord] at hperm
    exact absurd (List.Perm.nil_eq hperm).symm hinv.1
  | cons e rest =>
    obtain ⟨k, v⟩ := e
    rw [hord] at hperm
    have hmem := hinv.2 (k, v) ((hperm.mem_iff).1 (List.mem_cons_self _ _))
    cases v with
    | nil => exact absurd rfl hmem.1
    | cons t ts =>
      have ht : t = "" := hmem.2 t (List.mem_cons_self _ _)
      subst ht
      refine ⟨k, ?_⟩
      have hsplit : Split "" ',' = [""] := by decide
      simp [Validate, GoValue.Kind, GetFieldAndTagNames, Indirect, hord, rangeFields,
        rangeTags, hsplit, rangeSplittedTags, validateSplittedTag_empty, Run.andThen]

/-- Claim C1 at the struct `struct{ A int }{1}` (one field, no tag). -/
theorem C1_untagged_field_is_fatal_witness :
    (∃ k, Validate (fun _ => false) ⟨.struct [⟨"A", [], .int 1⟩], true⟩ id =
      ⟨[.lookup k ""], .fatal "Unknown tag: "⟩) ∧
    Validate (fun _ => false) ⟨.struct [⟨"A", [], .int 1⟩], true⟩ id =
      ⟨[.lookup "A" ""], .fatal "Unknown tag: "⟩ ∧
    Validate (fun _ => false) ⟨.struct [⟨"A", [], .int 1⟩], false⟩ id =
      ⟨[.lookup "A" ""], .fatal "Unknown tag: "⟩ :=
  ⟨C1_untagged_field_is_fatal (fun _ => false) [⟨"A", [], .int 1⟩] true id
      (fun m => List.Perm.refl m) (by simp)
      (by intro f hf; simp at hf; subst hf; rfl),
    by decide, by decide⟩

/-! ## The field-tag map of a struct with distinct field names -/

theorem mapAppend_of_not_mem (m : FieldTagMap) (field tag : String)
    (h : field ∉ m.map Prod.fst) : mapAppend m field tag = m ++ [(field, [tag])] := by
  induction m with
  | nil => rfl
  | cons e m ih =>
    obtain ⟨k, tags⟩ := e
    simp only [List.map_cons, List.mem_cons, not_or] at h
    unfold mapAppend
    rw [if_neg (fun hk => h.1 hk.symm), ih h.2]
    rfl

theorem foldl_nodup (fs : List (StructField GoValue)) (acc : FieldTagMap)
    (hnd : (fs.map (fun f => f.Name)).Nodup)
    (hacc : ∀ f ∈ fs, f.Name ∉ acc.map Prod.fst) :
    fs.foldl (fun fieldsAndTags f =>
        mapAppend fieldsAndTags f.Name (f.Tag.Get "validate")) acc =
      acc ++ fs.map (fun f => (f.Name, [f.Tag.Get "validate"])) := by
  induction fs generalizing acc with
  | nil => simp
  | cons f fs ih =>
    simp only [List.map_cons, List.nodup_cons] at hnd
    simp only [List.foldl_cons]
    rw [mapAppend_of_not_mem _ _ _ (hacc f (List.mem_cons_self _ _)), ih _ hnd.2]
    · simp
    · intro g hg hmem
      simp only [List.map_append, List.map_cons, List.map_nil, List.mem_append,
        List.mem_singleton] at hmem
      rcases hmem with hmem | hmem
      · exact hacc g (List.mem_cons_of_mem _ hg) hmem
      · exact hnd.1 (hmem ▸ List.mem_map_of_mem (fun f => f.Name) hg)

theorem GetFieldAndTagNames_nodup (fields : List (StructField GoValue))
    (hnd : (fields.map (fun f => f.Name)).Nodup) :
    GetFieldAndTagNames (.struct fields) =
      .ok (fields.map (fun f => (f.Name, [f.Tag.Get "validate"]))) := by
  have h := foldl_nodup fields [] hnd (by simp)
  simp only [List.nil_append] at h
  simp [GetFieldAndTagNames, Indirect, h]

theorem perm_map_inv {α β : Type} (g : α → β) {l l' : List β} (h : l.Perm l') :
    ∀ fs : List α, fs.map g = l' → ∃ v : List α, v.Perm fs ∧ l = v.map g := by
  induction h with
  | nil =>
    intro fs hfs
    exact ⟨[], by simp [List.map_eq_nil_iff.1 hfs], rfl⟩
  | cons x _ ih =>
    intro fs hfs
    cases fs with
    | nil => simp at hfs
    | cons a fs =>
      simp only [List.map_cons, List.cons.injEq] at hfs
      obtain ⟨v, hv, rfl⟩ := ih fs hfs.2
      exact ⟨a :: v, hv.cons a, by simp [hfs.1]⟩
  | swap x y t =>
    intro fs hfs
    cases fs with
    | nil => simp at hfs
    | cons a fs =>
      cases fs with
      | nil => simp at hfs
      | cons b fs =>
        simp only [List.map_cons, List.cons.injEq] at hfs
        obtain ⟨h1, h2, h3⟩ := hfs
        exact ⟨b :: a :: fs, List.Perm.swap a b fs, by simp [h1, h2, h3]⟩
  | trans _ _ ih1 ih2 =>
    intro fs hfs
    obtain ⟨v2, hv2, h2⟩ := ih2 fs hfs
    obtain ⟨v1, hv1, h1⟩ := ih1 v2 h2.symm
    exact ⟨v1, hv1.trans hv2, h1⟩

theorem FieldByName_of_mem (fields : List (StructField GoValue))
    (hnd : (fields.map (fun f => f.Name)).Nodup) (f : StructField GoValue)
    (hf : f ∈ fields) (hname : f.Name ≠ "") :
    FieldByName (.struct fields) f.Name = some f := by
  unfold FieldByName
  rw [if_neg hname]
  simp only [GoValue.fields]
  induction fields with
  | nil => simp at hf
  | cons g gs ih =>
    simp only [List.map_cons, List.nodup_cons] at hnd
    rcases List.mem_cons.1 hf with rfl | hf'
    · simp [List.find?]
    · have hne : g.Name ≠ f.Name := by
        intro he
        exact hnd.1 (he ▸ List.mem_map_of_mem (fun f => f.Name) hf')
      have hb : (g.Name == f.Name) = false := by simpa using hne
      simp only [List.find?, hb]
      exact ih hnd.2 hf'

/-! ## Silent mode on a fully tagged, exported record -/

theorem ruleAccepts_run (U : Nat → Bool) (t : String) (v : GoValue)
    (h : ruleAccepts t v = true) :
    ∃ rule, (getValidatorMap U).lookup t = some rule ∧
      (rule v true).outcome = .returned ∧
      (((rule v true).raised = false ∧ (rule v true).trace = []) ∨
        ∃ msg, (rule v true).raised = true ∧ (rule v true).trace = [.logged msg]) := by
  have hD : ∀ r : Run, r = Run.done →
      r.outcome = .returned ∧
      ((r.raised = false ∧ r.trace = []) ∨
        ∃ msg, r.raised = true ∧ r.trace = [.logged msg]) := by
    intro r hr; subst hr; exact ⟨rfl, Or.inl ⟨rfl, rfl⟩⟩
  have hV : ∀ (r : Run) (msg : String), r = violationRun msg true →
      r.outcome = .returned ∧
      ((r.raised = false ∧ r.trace = []) ∨
        ∃ msg, r.raised = true ∧ r.trace = [.logged msg]) := by
    intro r msg hr; subst hr; exact ⟨rfl, Or.inr ⟨msg, rfl, rfl⟩⟩
  unfold ruleAccepts at h
  split_ifs at h with h1 h2 h3 h4 h5
  · subst h1
    refine ⟨requiredFieldValidator, rfl, ?_⟩
    cases v with
    | nil =>
      exact hV _ "required field cannot be empty"
        (by simp [requiredFieldValidator, throwErr_eq])
    | _ => exact hD _ rfl
  · subst h2
    refine ⟨positiveNumberFieldValidator, rfl, ?_⟩
    cases v with
    | int n =>
      by_cases hn : n < 0
      · exact hV _ "positive number field must greater then zero"
          (by simp [positiveNumberFieldValidator, hn, throwErr_eq])
      · exact hD _ (by simp [positiveNumberFieldValidator, hn])
    | _ => simp at h
  · subst h3
    refine ⟨nameFieldValidator, rfl, ?_⟩
    cases v with
    | string s =>
      by_cases hn : (Split s ' ').length = 1
      · exact hV _ "name field must be minimum 2 words"
          (by simp [nameFieldValidator, hn, throwErr_eq])
      · exact hD _ (by simp [nameFieldValidator, hn])
    | _ => simp at h
  · subst h4
    refine ⟨alwaysTrueValidator, rfl, ?_⟩
    cases v with
    | bool b =>
      cases b
      · exact hV _ "always true field must be true"
          (by simp [alwaysTrueValidator, throwErr_eq])
      · exact hD _ rfl
    | _ => simp at h
  · subst h5
    refine ⟨slugFieldValidator U, rfl, ?_⟩
    cases v with
    | string s =>
      by_cases hn : hasUpperLoop U s.data = true
      · exact hV _ "slug field must contains lowercase letters"
          (by simp [slugFieldValidator, hn, throwErr_eq])
      · exact hD _ (by simp [slugFieldValidator, hn])
    | _ => simp at h

theorem validateSplittedTag_accepted (U : Nat → Bool) (f : StructField GoValue)
    (t : String) (hexp : IsExported U f.Name = true)
    (hacc : ruleAccepts t f.value = true) :
    validateSplittedTag U f.Name (some f) true t = ⟨checkSteps U f t, .returned⟩ := by
  obtain ⟨rule, hl, ho, _⟩ := ruleAccepts_run U t f.value hacc
  simp [validateSplittedTag, hl, Interface, hexp, checkSteps, Run.andThen, Run.emit, ho]

theorem rangeSplittedTags_accepted (U : Nat → Bool) (f : StructField GoValue)
    (ts : List String) (hexp : IsExported U f.Name = true)
    (hacc : ∀ t ∈ ts, ruleAccepts t f.value = true) :
    rangeSplittedTags U f.Name (some f) true ts =
      ⟨ts.flatMap (checkSteps U f), .returned⟩ := by
  induction ts with
  | nil => rfl
  | cons t ts ih =>
    simp only [rangeSplittedTags]
    rw [validateSplittedTag_accepted U f t hexp (hacc t (List.mem_cons_self _ _)),
      ih (fun t' ht' => hacc t' (List.mem_cons_of_mem _ ht'))]
    simp [Run.andThen, List.flatMap_cons]

theorem rangeFields_accepted (U : Nat → Bool) (fields visited : List (StructField GoValue))
    (hfind : ∀ f ∈ visited, FieldByName (.struct fields) f.Name = some f)
    (hexp : ∀ f ∈ visited, IsExported U f.Name = true)
    (hacc : ∀ f ∈ visited, ∀ t ∈ ruleNames f, ruleAccepts t f.value = true) :
    rangeFields U (.struct fields) true
        (visited.map (fun f => (f.Name, [f.Tag.Get "validate"]))) =
      ⟨visited.flatMap (fieldSteps U), .returned⟩ := by
  induction visited with
  | nil => rfl
  | cons f fs ih =>
    have hf := List.mem_cons_self f fs
    have h1 : rangeSplittedTags U f.Name (some f) true (Split (f.Tag.Get "validate") ',') =
        ⟨(ruleNames f).flatMap (checkSteps U f), .returned⟩ :=
      rangeSplittedTags_accepted U f _ (hexp f hf) (hacc f hf)
    simp only [List.map_cons, rangeFields, rangeTags]
    rw [hfind f hf, Run.andThen_done, h1,
      ih (fun g hg => hfind g (List.mem_cons_of_mem _ hg))
        (fun g hg => hexp g (List.mem_cons_of_mem _ hg))
        (fun g hg => hacc g (List.mem_cons_of_mem _ hg))]
    simp [Run.andThen, List.flatMap_cons, fieldSteps, ruleNames]

theorem IsExported_ne_empty (U : Nat → Bool) (name : String)
    (h : IsExported U name = true) : name ≠ "" := by
  intro he
  subst he
  simp [IsExported] at h

/-- Claim C5, as amended. In silent mode, for every struct record with distinct
field names in which every field is exported and carries a `validate` tag whose
comma-separated names are all registered rules matching the dynamic type of the
field, and for every iteration order: `Validate` returns; its trace is, for the
fields in the order visited (a permutation of the fields), for each rule name
in tag order, the lookup, the call and what the rule logs; and each rule logs
nothing when its check raises no violation and exactly one line when it raises
one. -/
theorem C5_silent_checks_every_rule (U : Nat → Bool)
    (fields : List (StructField GoValue)) (order : FieldTagMap → FieldTagMap)
    (hO : IsRangeOrder order)
    (hnd : (fields.map (fun f => f.Name)).Nodup)
    (hexp : ∀ f ∈ fields, IsExported U f.Name = true)
    (hacc : ∀ f ∈ fields, ∀ t ∈ ruleNames f, ruleAccepts t f.value = true) :
    (Validate U ⟨.struct fields, true⟩ order).outcome = .returned ∧
    (∃ visited : List (StructField GoValue), visited.Perm fields ∧
      (Validate U ⟨.struct fields, true⟩ order).trace =
        visited.flatMap (fieldSteps U)) ∧
    (∀ f ∈ fields, ∀ t ∈ ruleNames f,
      ∃ rule, (getValidatorMap U).lookup t = some rule ∧
        (((rule f.value true).raised = false ∧ (rule f.value true).trace = []) ∨
          ∃ msg, (rule f.value true).raised = true ∧
            (rule f.value true).trace = [.logged msg])) := by
  have htags := GetFieldAndTagNames_nodup fields hnd
  obtain ⟨visited, hperm, hord⟩ :=
    perm_map_inv (fun f : StructField GoValue => (f.Name, [f.Tag.Get "validate"]))
      (hO (fields.map (fun f => (f.Name, [f.Tag.Get "validate"])))) fields rfl
  have hmem : ∀ f ∈ visited, f ∈ fields := fun f hf => (hperm.mem_iff).1 hf
  have hrun := rangeFields_accepted U fields visited
    (fun f hf => FieldByName_of_mem fields hnd f (hmem f hf)
      (IsExported_ne_empty U _ (hexp f (hmem f hf))))
    (fun f hf => hexp f (hmem f hf)) (fun f hf => hacc f (hmem f hf))
  have hV : Validate U ⟨.struct fields, true⟩ order =
      ⟨visited.flatMap (fieldSteps U), .returned⟩ := by
    simp only [Validate, GoValue.Kind, htags, hord, hrun, Run.andThen_done]
    simp
  refine ⟨by rw [hV], ⟨visited, hperm, by rw [hV]⟩, ?_⟩
  intro f hf t ht
  obtain ⟨rule, hl, _, hr⟩ := ruleAccepts_run U t f.value (hacc f hf t ht)
  exact ⟨rule, hl, hr⟩

/-- Claim C5 at the demo record of `main` (silent): `Validate` returns, and the
one line logged is the `nameField` violation of `ProductName`. -/
theorem C5_silent_checks_every_rule_witness :
    (Validate latin1Only mainValidator id).outcome = .returned ∧
    (Validate latin1Only mainValidator id).trace.filter Event.isLogged =
      [.logged "name field must be minimum 2 words"] ∧
    (Validate latin1Only mainValidator id).trace =
      (productFields 1 "TestProduct" 1 true "test").flatMap (fieldSteps latin1Only) :=
  ⟨(C5_silent_checks_every_rule latin1Only (productFields 1 "TestProduct" 1 true "test") id
      (fun m => List.Perm.refl m) (by decide) (by decide) (by decide)).1,
    by decide, by decide⟩

/-- Claim C5 as stated fails: the record `struct{ name string }{"a b"}` with the
tag `validate:"nameField"` has only registered rule names on a field of the
expected type, yet in silent mode `Validate` panics inside `reflect`, because
the value of an unexported field cannot be turned into an interface value. -/
theorem C5_counterexample :
    (∀ f ∈ unexportedNameFields, ∀ t ∈ ruleNames f, ruleAccepts t f.value = true) ∧
    Validate latin1Only ⟨.struct unexportedNameFields, true⟩ id =
      ⟨[.lookup "name" "nameField"], .panic (.reflect
        "reflect.Value.Interface: cannot return value obtained from unexported field or method")⟩ :=
  ⟨by decide, by decide⟩

/-- Claim C2 at a record whose field is tagged `bogusRule`, in both modes. -/
theorem C2_unknown_rule_is_fatal_witness :
    (Validate latin1Only ⟨.struct [⟨"A", [("validate", "bogusRule")], .int 1⟩], true⟩
        id).outcome = .fatal "Unknown tag: bogusRule" ∧
    (Validate latin1Only ⟨.struct [⟨"A", [("validate", "bogusRule")], .int 1⟩], false⟩
        id).outcome = .fatal "Unknown tag: bogusRule" :=
  ⟨(C2_unknown_rule_is_fatal latin1Only
      ⟨.struct [⟨"A", [("validate", "bogusRule")], .int 1⟩], true⟩ id "A" "bogusRule"
      (by decide) (by decide)).1,
   (C2_unknown_rule_is_fatal latin1Only
      ⟨.struct [⟨"A", [("validate", "bogusRule")], .int 1⟩], false⟩ id "A" "bogusRule"
      (by decide) (by decide)).1⟩

/-- Claim C4 at the product with `ProductID = -1`, `Quantity = -1` and
`IsActive = false`, fields visited in declaration order: the strict run stops
at the `positiveNumberField` violation of `ProductID`. -/
theorem C4_strict_stops_at_first_violation_witness :
    Validate latin1Only ⟨Product (-1) "Test Product" (-1) false "test", false⟩ id =
      ⟨[.lookup "ProductID" "required", .invoke "ProductID" "required",
        .lookup "ProductID" "positiveNumberField",
        .invoke "ProductID" "positiveNumberField"],
       .panic (.logPanicln ⟨"positive number field must greater then zero", false⟩)⟩ :=
  (C4_strict_stops_at_first_violation latin1Only
    (Product (-1) "Test Product" (-1) false "test") id).2
    [.lookup "ProductID" "required", .invoke "ProductID" "required",
      .lookup "ProductID" "positiveNumberField",
      .invoke "ProductID" "positiveNumberField"]
    "positive number field must greater then zero"
    [.lookup "ProductName" "nameField", .invoke "ProductName" "nameField",
      .lookup "Quantity" "positiveNumberField", .invoke "Quantity" "positiveNumberField",
      .logged "positive number field must greater then zero",
      .lookup "IsActive" "alwaysTrueField", .invoke "IsActive" "alwaysTrueField",
      .logged "always true field must be true",
      .lookup "Slug" "slugField", .invoke "Slug" "slugField"]
    (by decide) (by intro m hm; simp at hm)

/-- Claim C8 at the slug `test-slug-123`. -/
theorem C8_slugField_violation_iff_some_upper_witness :
    (slugFieldValidator latin1Only (.string "test-slug-123") true).raised = false ∧
    (slugFieldValidator latin1Only (.string "Test") true).raised = true :=
  ⟨(C8_slugField_violation_iff_some_upper latin1Only "test-slug-123" true).2.2
      (by decide),
    ((C8_slugField_violation_iff_some_upper latin1Only "Test" true).1).2
      ⟨'T', by decide, by decide⟩⟩

/-! ## A pointer to a struct -/

/-- Claim C18. For every pointer to a struct value and either silence flag,
`Validate` ends at once in the `log.Panicf` panic naming the kind `ptr`, while
`GetFieldAndTagNames` on the same pointer dereferences it and returns the
field-tag map of the struct. -/
theorem C18_pointer_to_struct_is_rejected (U : Nat → Bool)
    (fields : List (StructField GoValue)) (failSilently : Bool)
    (order : FieldTagMap → FieldTagMap) :
    Validate U ⟨.ptr (some (.struct fields)), failSilently⟩ order =
      ⟨[], .panic (.logPanicf "Non struct types can not validate: ptr")⟩ ∧
    GetFieldAndTagNames (.ptr (some (.struct fields))) =
      GetFieldAndTagNames (.struct fields) ∧
    (∃ m, GetFieldAndTagNames (.ptr (some (.struct fields))) = .ok m) := by
  refine ⟨?_, rfl, ?_⟩
  · simp [Validate, GoValue.Kind, Run.stop, Kind.toStr]
  · exact ⟨_, rfl⟩

/-! ## `nameField` and the space character -/

theorem splitRunes_length (sep : Char) (cs : List Char) :
    (splitRunes sep cs).length = cs.count sep + 1 := by
  induction cs with
  | nil => simp [splitRunes]
  | cons c cs ih =>
    unfold splitRunes
    by_cases h : c = sep
    · subst h
      simp [ih]
    · rw [if_neg h]
      have hc : (c :: cs).count sep = cs.count sep := by
        rw [List.count_cons]
        have : (c == sep) = false := by simpa using h
        simp [this]
      cases hs : splitRunes sep cs with
      | nil => rw [hs] at ih; simp at ih
      | cons piece pieces =>
        rw [hs] at ih
        simp only [List.length_cons] at ih ⊢
        omega

theorem Split_length_eq_one_iff (s : String) (sep : Char) :
    (Split s sep).length = 1 ↔ sep ∉ s.data := by
  have h : (Split s sep).length = s.data.count sep + 1 := by
    simp [Split, splitRunes_length]
  rw [h]
  constructor
  · intro h1 hm
    have := List.count_pos_iff.2 hm
    omega
  · intro h1
    have := List.count_eq_zero_of_not_mem h1
    omega

/-- Claim C19. `nameFieldValidator` passes a string if and only if the string
contains at least one space character, whether or not the pieces around the
spaces are empty: `" "`, `"John "` and `" John"` pass, the empty string fails,
and so does every string without a space. -/
theorem C19_nameField_passes_iff_contains_space (s : String) (failSilently : Bool) :
    ((nameFieldValidator (.string s) failSilently).raised = false ↔ ' ' ∈ s.data) ∧
    nameFieldValidator (.string s) failSilently =
      (if ' ' ∈ s.data then Run.done
       else violationRun "name field must be minimum 2 words" failSilently) ∧
    nameFieldValidator (.string " ") failSilently = Run.done ∧
    nameFieldValidator (.string "John ") failSilently = Run.done ∧
    nameFieldValidator (.string " John") failSilently = Run.done ∧
    nameFieldValidator (.string "") failSilently =
      violationRun "name field must be minimum 2 words" failSilently := by
  have key : ∀ t : String, nameFieldValidator (.string t) failSilently =
      (if ' ' ∈ t.data then Run.done
       else violationRun "name field must be minimum 2 words" failSilently) := by
    intro t
    by_cases h : ' ' ∈ t.data
    · have h1 : ¬ (Split t ' ').length = 1 := fun h1 =>
        (Split_length_eq_one_iff t ' ').1 h1 h
      simp [nameFieldValidator, h, h1]
    · have h1 : (Split t ' ').length = 1 := (Split_length_eq_one_iff t ' ').2 h
      simp [nameFieldValidator, h, h1, throwErr_eq]
  refine ⟨?_, key s, ?_, ?_, ?_, ?_⟩
  · rw [key s]
    by_cases h : ' ' ∈ s.data
    · simp [h, Run.done, Run.raised]
    · simp [h, violationRun_raised]
  · rw [key]; exact if_pos (by decide)
  · rw [key]; exact if_pos (by decide)
  · rw [key]; exact if_pos (by decide)
  · rw [key]; exact if_neg (by decide)

/-! ## `required` on boxed concrete values -/

/-- Claim C17. The `required` rule raises no violation on a value of dynamic
type `int`, `string` or `bool`, whatever the value (the zero values included),
for either silence flag; the check of `required` made by `Validate` on a field
holding such a value raises none either, whatever the name and tag of the
field; and for every value of the `Product` record, the check of `required` on
`ProductID` is the lookup and the call, with no violation, after which the run
goes on. -/
theorem C17_required_never_fires_on_concrete_values (U : Nat → Bool)
    (failSilently : Bool) :
    (∀ n : Int, requiredFieldValidator (.int n) failSilently = Run.done) ∧
    (∀ s : String, requiredFieldValidator (.string s) failSilently = Run.done) ∧
    (∀ b : Bool, requiredFieldValidator (.bool b) failSilently = Run.done) ∧
    (∀ (name : String) (tag : StructTag) (n : Int),
      (validateSplittedTag U name (some ⟨name, tag, .int n⟩) failSilently
        "required").raised = false) ∧
    (∀ (name : String) (tag : StructTag) (s : String),
      (validateSplittedTag U name (some ⟨name, tag, .string s⟩) failSilently
        "required").raised = false) ∧
    (∀ (name : String) (tag : StructTag) (b : Bool),
      (validateSplittedTag U name (some ⟨name, tag, .bool b⟩) failSilently
        "required").raised = false) ∧
    (∀ (ProductID : Int) (ProductName : String) (Quantity : Int) (IsActive : Bool)
        (Slug : String),
      validateSplittedTag U "ProductID"
          (FieldByName (Product ProductID ProductName Quantity IsActive Slug) "ProductID")
          failSilently "required" =
        ⟨[.lookup "ProductID" "required", .invoke "ProductID" "required"], .returned⟩) := by
  have hl : (getValidatorMap U).lookup "required" = some requiredFieldValidator := rfl
  have key : ∀ (name : String) (tag : StructTag) (v : GoValue),
      requiredFieldValidator v failSilently = Run.done →
      (validateSplittedTag U name (some ⟨name, tag, v⟩) failSilently
        "required").raised = false := by
    intro name tag v hv
    by_cases he : IsExported U name = true
    · simp [validateSplittedTag, hl, Interface, he, hv, Run.andThen, Run.emit, Run.done,
        Run.raised, Event.isLogged]
    · simp [validateSplittedTag, hl, Interface, he, Run.andThen, Run.emit, Run.stop,
        Run.raised, Event.isLogged]
  refine ⟨fun _ => rfl, fun _ => rfl, fun _ => rfl, fun name tag n => key name tag _ rfl,
    fun name tag s => key name tag _ rfl, fun name tag b => key name tag _ rfl, ?_⟩
  intro pid pname q a sl
  have hf : FieldByName (Product pid pname q a sl) "ProductID" =
      some ⟨"ProductID", productTag "productId" "required,positiveNumberField", .int pid⟩ := by
    rfl
  have he : IsExported U "ProductID" = true := rfl
  rw [hf]
  simp [validateSplittedTag, hl, Interface, he, requiredFieldValidator, Run.andThen,
    Run.emit, Run.done]

/-! ## The two modes compared -/

theorem strictOf_no_logged (s : Run) : ∀ msg, Event.logged msg ∉ (strictOf s).trace := by
  intro msg
  unfold strictOf
  cases hc : cutAtLogged s.trace with
  | none => exact cutAtLogged_none hc msg
  | some p =>
    obtain ⟨pre, m⟩ := p
    exact cutAtLogged_some hc msg

theorem cutAtLogged_of_no_logged {l : List Event} (h : ∀ msg, Event.logged msg ∉ l) :
    cutAtLogged l = none := by
  induction l with
  | nil => rfl
  | cons e es ih =>
    have he : e.loggedMsg = none := by
      cases e with
      | logged m => exact absurd (List.mem_cons_self _ _) (h m)
      | _ => rfl
    simp [cutAtLogged, he, ih (fun m hm => h m (List.mem_cons_of_mem _ hm))]

theorem andThen_outcome_cases (a b : Run) :
    (a.andThen b).outcome = a.outcome ∨ (a.andThen b).outcome = b.outcome := by
  by_cases h : a.outcome = .returned
  · rw [Run.andThen_returned _ h]; exact Or.inr rfl
  · rw [Run.andThen_stopped _ h]; exact Or.inl rfl

theorem andThen_outcome_ne_logPanicln {a b : Run} {e : ValidationError}
    (ha : a.outcome ≠ .panic (.logPanicln e)) (hb : b.outcome ≠ .panic (.logPanicln e)) :
    (a.andThen b).outcome ≠ .panic (.logPanicln e) := by
  rcases andThen_outcome_cases a b with h | h <;> rw [h] <;> assumption

theorem rule_run_silent_ne_logPanicln (U : Nat → Bool) (t : String)
    (f : GoValue → Bool → Run) (h : (getValidatorMap U).lookup t = some f)
    (v : GoValue) (e : ValidationError) :
    (f v true).outcome ≠ .panic (.logPanicln e) := by
  rcases rule_run_cases U t f h v with h1 | ⟨msg, h1⟩ | ⟨want, h1⟩
  · simp [h1, Run.done]
  · simp [h1, violationRun]
  · simp [h1, Run.stop]

theorem validateSplittedTag_silent_ne_logPanicln (U : Nat → Bool) (k : String)
    (fieldValue : Option (StructField GoValue)) (t : String) (e : ValidationError) :
    (validateSplittedTag U k fieldValue true t).outcome ≠ .panic (.logPanicln e) := by
  unfold validateSplittedTag
  apply andThen_outcome_ne_logPanicln (by simp [Run.emit])
  cases hl : (getValidatorMap U).lookup t with
  | none => simp [Run.stop]
  | some f =>
    cases hi : Interface U fieldValue with
    | error p =>
      cases fieldValue with
      | none => simp [Interface] at hi; subst hi; simp [Run.stop]
      | some g =>
        simp only [Interface] at hi
        split at hi
        · cases hi
        · cases hi; simp [Run.stop]
    | ok v =>
      exact andThen_outcome_ne_logPanicln (by simp [Run.emit])
        (rule_run_silent_ne_logPanicln U t f hl v e)

theorem rangeSplittedTags_silent_ne_logPanicln (U : Nat → Bool) (k : String)
    (fieldValue : Option (StructField GoValue)) (ts : List String) (e : ValidationError) :
    (rangeSplittedTags U k fieldValue true ts).outcome ≠ .panic (.logPanicln e) := by
  induction ts with
  | nil => simp [rangeSplittedTags, Run.done]
  | cons t ts ih =>
    exact andThen_outcome_ne_logPanicln
      (validateSplittedTag_silent_ne_logPanicln U k fieldValue t e) ih

theorem rangeTags_silent_ne_logPanicln (U : Nat → Bool) (k : String)
    (fieldValue : Option (StructField GoValue)) (tags : List String) (e : ValidationError) :
    (rangeTags U k fieldValue true tags).outcome ≠ .panic (.logPanicln e) := by
  induction tags with
  | nil => simp [rangeTags, Run.done]
  | cons t ts ih =>
    exact andThen_outcome_ne_logPanicln
      (rangeSplittedTags_silent_ne_logPanicln U k fieldValue _ e) ih

theorem rangeFields_silent_ne_logPanicln (U : Nat → Bool) (rv : GoValue)
    (m : FieldTagMap) (e : ValidationError) :
    (rangeFields U rv true m).outcome ≠ .panic (.logPanicln e) := by
  induction m with
  | nil => simp [rangeFields, Run.done]
  | cons x m ih =>
    obtain ⟨k, v⟩ := x
    exact andThen_outcome_ne_logPanicln (rangeTags_silent_ne_logPanicln U k _ v e) ih

/-- A silent run of `Validate` never ends in the panic of `log.Panicln`. -/
theorem silent_outcome_ne_logPanicln (U : Nat → Bool) (model : GoValue)
    (order : FieldTagMap → FieldTagMap) (e : ValidationError) :
    (Validate U ⟨model, true⟩ order).outcome ≠ .panic (.logPanicln e) := by
  unfold Validate
  simp only
  split
  · simp [Run.stop]
  · split
    · rename_i p hp
      simp only [GetFieldAndTagNames] at hp
      split at hp <;> simp at hp <;> subst hp <;> simp [Run.stop]
    · rw [Run.andThen_done]
      exact rangeFields_silent_ne_logPanicln U _ _ e

/-- Claim C13. For every model and every iteration order, the silent run and
the strict run of `Validate` are the same run (same events, same outcome:
both return, or both end in the same panic or `log.Fatalf`) if and only if the
silent run logs no violation; so the two modes differ only when a rule reports
a data violation. -/
theorem C13_modes_agree_iff_no_violation (U : Nat → Bool) (model : GoValue)
    (order : FieldTagMap → FieldTagMap) :
    ((∀ msg, Event.logged msg ∉ (Validate U ⟨model, true⟩ order).trace) ↔
      Validate U ⟨model, false⟩ order = Validate U ⟨model, true⟩ order) ∧
    ((∀ msg, Event.logged msg ∉ (Validate U ⟨model, true⟩ order).trace) ↔
      (Validate U ⟨model, false⟩ order).outcome =
        (Validate U ⟨model, true⟩ order).outcome) := by
  have hstrict := Validate_strict U model order
  have hfwd : (∀ msg, Event.logged msg ∉ (Validate U ⟨model, true⟩ order).trace) →
      Validate U ⟨model, false⟩ order = Validate U ⟨model, true⟩ order := by
    intro h
    rw [hstrict]
    exact strictOf_of_no_logged _ (cutAtLogged_of_no_logged h)
  refine ⟨⟨hfwd, ?_⟩, ⟨fun h => by rw [hfwd h], ?_⟩⟩
  · intro h msg
    rw [← h, hstrict]
    exact strictOf_no_logged _ msg
  · intro h
    cases hc : cutAtLogged (Validate U ⟨model, true⟩ order).trace with
    | none => exact cutAtLogged_none hc
    | some p =>
      obtain ⟨pre, m⟩ := p
      -- the strict run ends in the violation panic, which no silent run does
      have hs : (Validate U ⟨model, false⟩ order).outcome =
          .panic (.logPanicln ⟨m, false⟩) := by
        rw [hstrict]; simp [strictOf, hc]
      rw [hs] at h
      exact absurd h.symm (silent_outcome_ne_logPanicln U model order ⟨m, false⟩)

/-! ## The `Product` schema end to end -/

/-- The silent run over a fully tagged, exported record, for any iteration
order: the fields are visited in some order, each checked completely. -/
theorem Validate_silent_accepted (U : Nat → Bool)
    (fields : List (StructField GoValue)) (order : FieldTagMap → FieldTagMap)
    (hO : IsRangeOrder order)
    (hnd : (fields.map (fun f => f.Name)).Nodup)
    (hexp : ∀ f ∈ fields, IsExported U f.Name = true)
    (hacc : ∀ f ∈ fields, ∀ t ∈ ruleNames f, ruleAccepts t f.value = true) :
    ∃ visited : List (StructField GoValue), visited.Perm fields ∧
      Validate U ⟨.struct fields, true⟩ order =
        ⟨visited.flatMap (fieldSteps U), .returned⟩ := by
  have htags := GetFieldAndTagNames_nodup fields hnd
  obtain ⟨visited, hperm, hord⟩ :=
    perm_map_inv (fun f : StructField GoValue => (f.Name, [f.Tag.Get "validate"]))
      (hO (fields.map (fun f => (f.Name, [f.Tag.Get "validate"])))) fields rfl
  have hmem : ∀ f ∈ visited, f ∈ fields := fun f hf => (hperm.mem_iff).1 hf
  have hrun := rangeFields_accepted U fields visited
    (fun f hf => FieldByName_of_mem fields hnd f (hmem f hf)
      (IsExported_ne_empty U _ (hexp f (hmem f hf))))
    (fun f hf => hexp f (hmem f hf)) (fun f hf => hacc f (hmem f hf))
  refine ⟨visited, hperm, ?_⟩
  simp only [Validate, GoValue.Kind, htags, hord, hrun, Run.andThen_done]
  simp

theorem productFields_exported (U : Nat → Bool) (ProductID : Int) (ProductName : String)
    (Quantity : Int) (IsActive : Bool) (Slug : String) :
    ∀ f ∈ productFields ProductID ProductName Quantity IsActive Slug,
      IsExported U f.Name = true := by
  intro f hf
  simp only [productFields, List.mem_cons, List.mem_singleton, List.not_mem_nil,
    or_false] at hf
  rcases hf with rfl | rfl | rfl | rfl | rfl <;> rfl

theorem cutAtLogged_of_filter_nil {l : List Event} (h : l.filter Event.isLogged = []) :
    cutAtLogged l = none := by
  apply cutAtLogged_of_no_logged
  intro msg hm
  have : Event.logged msg ∈ l.filter Event.isLogged :=
    List.mem_filter.2 ⟨hm, rfl⟩
  rw [h] at this
  simp at this

theorem cutAtLogged_of_filter_cons {l : List Event} {msg : String} {rest : List Event}
    (h : l.filter Event.isLogged = Event.logged msg :: rest) :
    ∃ pre, cutAtLogged l = some (pre, msg) := by
  induction l with
  | nil => simp at h
  | cons e es ih =>
    cases e with
    | logged m =>
      simp only [List.filter_cons, Event.isLogged, if_true, List.cons.injEq,
        Event.logged.injEq] at h
      exact ⟨[], by simp [cutAtLogged, Event.loggedMsg, h.1]⟩
    | lookup k t =>
      simp only [List.filter_cons, Event.isLogged] at h
      obtain ⟨pre, hp⟩ := ih (by simpa using h)
      exact ⟨Event.lookup k t :: pre, by simp [cutAtLogged, Event.loggedMsg, hp]⟩
    | invoke k t =>
      simp only [List.filter_cons, Event.isLogged] at h
      obtain ⟨pre, hp⟩ := ih (by simpa using h)
      exact ⟨Event.invoke k t :: pre, by simp [cutAtLogged, Event.loggedMsg, hp]⟩

theorem product_good_logged (U : Nat → Bool) :
    ((productFields 1 "Test Product" 5 true "test-slug").flatMap
      (fieldSteps U)).filter Event.isLogged = [] := by
  rfl

theorem product_bad_logged (U : Nat → Bool) :
    ((productFields 1 "Test Product" (-1) true "test-slug").flatMap
      (fieldSteps U)).filter Event.isLogged =
      [.logged "positive number field must greater then zero"] := by
  rfl

theorem logged_of_visited (U : Nat → Bool) {visited fields : List (StructField GoValue)}
    (hperm : visited.Perm fields) :
    ((visited.flatMap (fieldSteps U)).filter Event.isLogged).Perm
      ((fields.flatMap (fieldSteps U)).filter Event.isLogged) :=
  (List.Perm.flatMap_right (fieldSteps U) hperm).filter _

/-- Claim C11. On the `Product` schema, for every iteration order: the record
`{1, "Test Product", 5, true, "test-slug"}` validates in both modes, `Validate`
returning with no logged violation; with `Quantity` changed to `-1` the strict
run ends in the panic of `log.Panicln` for the `positiveNumberField` violation,
and the silent run logs exactly that one violation and returns. -/
theorem C11_product_end_to_end (U : Nat → Bool) (order : FieldTagMap → FieldTagMap)
    (hO : IsRangeOrder order) :
    (∀ failSilently,
      (Validate U ⟨Product 1 "Test Product" 5 true "test-slug", failSilently⟩
        order).outcome = .returned ∧
      (Validate U ⟨Product 1 "Test Product" 5 true "test-slug", failSilently⟩
        order).trace.filter Event.isLogged = []) ∧
    (Validate U ⟨Product 1 "Test Product" (-1) true "test-slug", false⟩ order).outcome =
      .panic (.logPanicln ⟨"positive number field must greater then zero", false⟩) ∧
    (Validate U ⟨Product 1 "Test Product" (-1) true "test-slug", true⟩ order).outcome =
      .returned ∧
    (Validate U ⟨Product 1 "Test Product" (-1) true "test-slug", true⟩
      order).trace.filter Event.isLogged =
      [.logged "positive number field must greater then zero"] := by
  obtain ⟨vg, hpg, hg⟩ := Validate_silent_accepted U
    (productFields 1 "Test Product" 5 true "test-slug") order hO (by decide)
    (productFields_exported U _ _ _ _ _) (by decide)
  obtain ⟨vb, hpb, hb⟩ := Validate_silent_accepted U
    (productFields 1 "Test Product" (-1) true "test-slug") order hO (by decide)
    (productFields_exported U _ _ _ _ _) (by decide)
  have hlg : (vg.flatMap (fieldSteps U)).filter Event.isLogged = [] := by
    have h := logged_of_visited U hpg
    rw [product_good_logged] at h
    exact List.Perm.eq_nil h
  have hlb : (vb.flatMap (fieldSteps U)).filter Event.isLogged =
      [.logged "positive number field must greater then zero"] := by
    have h := logged_of_visited U hpb
    rw [product_bad_logged] at h
    exact List.perm_singleton.1 h
  have hgs : Validate U ⟨Product 1 "Test Product" 5 true "test-slug", true⟩ order =
      ⟨vg.flatMap (fieldSteps U), .returned⟩ := hg
  have hbs : Validate U ⟨Product 1 "Test Product" (-1) true "test-slug", true⟩ order =
      ⟨vb.flatMap (fieldSteps U), .returned⟩ := hb
  refine ⟨?_, ?_, ?_, ?_⟩
  · intro failSilently
    cases failSilently with
    | true => rw [hgs]; exact ⟨rfl, hlg⟩
    | false =>
      rw [Validate_strict, hgs,
        strictOf_of_no_logged _ (cutAtLogged_of_filter_nil hlg)]
      exact ⟨rfl, hlg⟩
  · obtain ⟨pre, hpre⟩ := cutAtLogged_of_filter_cons hlb
    rw [Validate_strict, hbs]
    simp [strictOf, hpre]
  · rw [hbs]
  · rw [hbs]; exact hlb

/-- Claim C11 with the fields visited in reverse declaration order. -/
theorem C11_product_end_to_end_witness :
    (Validate latin1Only ⟨Product 1 "Test Product" 5 true "test-slug", true⟩
      List.reverse).outcome = .returned ∧
    (Validate latin1Only ⟨Product 1 "Test Product" (-1) true "test-slug", false⟩
      List.reverse).outcome =
      .panic (.logPanicln ⟨"positive number field must greater then zero", false⟩) ∧
    (Validate latin1Only ⟨Product 1 "Test Product" (-1) true "test-slug", true⟩
      List.reverse).trace.filter Event.isLogged =
      [.logged "positive number field must greater then zero"] :=
  ⟨((C11_product_end_to_end latin1Only List.reverse
      (fun m => List.reverse_perm m)).1 true).1,
    (C11_product_end_to_end latin1Only List.reverse (fun m => List.reverse_perm m)).2.1,
    (C11_product_end_to_end latin1Only List.reverse (fun m => List.reverse_perm m)).2.2.2⟩

/-! ## Independence of the verdict from the iteration order -/

theorem andThen_returned_iff (a b : Run) :
    (a.andThen b).outcome = .returned ↔
      a.outcome = .returned ∧ b.outcome = .returned := by
  by_cases h : a.outcome = .returned
  · rw [Run.andThen_returned _ h]; simp [h]
  · rw [Run.andThen_stopped _ h]; simp [h]

theorem andThen_trace_of_returned (a b : Run) (h : (a.andThen b).outcome = .returned) :
    (a.andThen b).trace = a.trace ++ b.trace := by
  rw [Run.andThen_returned _ ((andThen_returned_iff a b).1 h).1]

theorem rangeFields_returned_iff (U : Nat → Bool) (rv : GoValue) (failSilently : Bool)
    (l : FieldTagMap) :
    (rangeFields U rv failSilently l).outcome = .returned ↔
      ∀ e ∈ l, (rangeTags U e.1 (FieldByName rv e.1) failSilently e.2).outcome =
        .returned := by
  induction l with
  | nil => simp [rangeFields, Run.done]
  | cons x l ih =>
    obtain ⟨k, v⟩ := x
    simp only [rangeFields, andThen_returned_iff, ih, List.mem_cons, forall_eq_or_imp]

theorem rangeFields_trace (U : Nat → Bool) (rv : GoValue) (failSilently : Bool)
    (l : FieldTagMap) (h : (rangeFields U rv failSilently l).outcome = .returned) :
    (rangeFields U rv failSilently l).trace =
      l.flatMap (fun e => (rangeTags U e.1 (FieldByName rv e.1) failSilently e.2).trace) := by
  induction l with
  | nil => simp [rangeFields, Run.done]
  | cons x l ih =>
    obtain ⟨k, v⟩ := x
    simp only [rangeFields] at h ⊢
    rw [andThen_trace_of_returned _ _ h, ih ((andThen_returned_iff _ _).1 h).2]
    simp [List.flatMap_cons]

/-- Claim C16. For every model, either silence flag and any two iteration
orders of the field map, `Validate` returns under one order if and only if it
returns under the other; and when it returns, the events of the two runs are
the same up to order, so the logged violations of a successful silent run are
the same multiset for every order. -/
theorem C16_verdict_independent_of_order (U : Nat → Bool) (validator : FieldValidator)
    (order₁ order₂ : FieldTagMap → FieldTagMap)
    (h₁ : IsRangeOrder order₁) (h₂ : IsRangeOrder order₂) :
    ((Validate U validator order₁).outcome = .returned ↔
      (Validate U validator order₂).outcome = .returned) ∧
    ((Validate U validator order₁).outcome = .returned →
      (Validate U validator order₁).trace.Perm (Validate U validator order₂).trace ∧
      ((Validate U validator order₁).trace.filter Event.isLogged).Perm
        ((Validate U validator order₂).trace.filter Event.isLogged)) := by
  unfold Validate
  simp only
  split
  · exact ⟨Iff.rfl, fun _ => ⟨List.Perm.refl _, List.Perm.refl _⟩⟩
  · split
    · exact ⟨Iff.rfl, fun _ => ⟨List.Perm.refl _, List.Perm.refl _⟩⟩
    · rename_i tags _
      simp only [Run.andThen_done]
      have hp : (order₁ tags).Perm (order₂ tags) := (h₁ tags).trans (h₂ tags).symm
      have hiff : (rangeFields U validator.model validator.failSilently
            (order₁ tags)).outcome = .returned ↔
          (rangeFields U validator.model validator.failSilently
            (order₂ tags)).outcome = .returned := by
        rw [rangeFields_returned_iff, rangeFields_returned_iff]
        constructor
        · intro h e he; exact h e (hp.mem_iff.2 he)
        · intro h e he; exact h e (hp.mem_iff.1 he)
      refine ⟨hiff, fun hr => ?_⟩
      have ht : (rangeFields U validator.model validator.failSilently
            (order₁ tags)).trace.Perm
          (rangeFields U validator.model validator.failSilently (order₂ tags)).trace := by
        rw [rangeFields_trace _ _ _ _ hr, rangeFields_trace _ _ _ _ (hiff.1 hr)]
        exact List.Perm.flatMap_right _ hp
      exact ⟨ht, ht.filter _⟩

/-- Claim C16 at the demo record of `main`, visited in declaration order and in
reverse declaration order. -/
theorem C16_verdict_independent_of_order_witness :
    (Validate latin1Only mainValidator id).outcome = .returned ∧
    (Validate latin1Only mainValidator List.reverse).outcome = .returned ∧
    ((Validate latin1Only mainValidator id).trace.filter Event.isLogged).Perm
      ((Validate latin1Only mainValidator List.reverse).trace.filter Event.isLogged) :=
  ⟨by decide,
    (C16_verdict_independent_of_order latin1Only mainValidator id List.reverse
      (fun m => List.Perm.refl m) (fun m => List.reverse_perm m)).1.1 (by decide),
    ((C16_verdict_independent_of_order latin1Only mainValidator id List.reverse
      (fun m => List.Perm.refl m) (fun m => List.reverse_perm m)).2 (by decide)).2⟩

/-! ## The field-tag map -/

theorem foldl_schema (fs : List (StructField GoValue)) (acc : FieldTagMap) :
    fs.foldl (fun fieldsAndTags f =>
        mapAppend fieldsAndTags f.Name (f.Tag.Get "validate")) acc =
      (fs.map schema).foldl (fun fieldsAndTags p =>
        mapAppend fieldsAndTags p.1 (StructTag.Get p.2 "validate")) acc := by
  induction fs generalizing acc with
  | nil => rfl
  | cons f fs ih => simp only [List.foldl_cons, List.map_cons, ih, schema]

/-- Claim C14, as amended. For every struct record whose field names are
pairwise distinct, and for a pointer to it, `GetFieldAndTagNames` returns the
map that has one entry per declared field, keyed by the Go field name, holding
the one-element list with the raw `validate` tag of the field (the empty string
when there is none); and the result depends only on the schema: two struct
values with the same field names and tags give the same map. -/
theorem C14_field_tag_map_of_distinct_names (fields : List (StructField GoValue))
    (hnd : (fields.map (fun f => f.Name)).Nodup) :
    GetFieldAndTagNames (.struct fields) =
      .ok (fields.map (fun f => (f.Name, [f.Tag.Get "validate"]))) ∧
    GetFieldAndTagNames (.ptr (some (.struct fields))) =
      .ok (fields.map (fun f => (f.Name, [f.Tag.Get "validate"]))) ∧
    (∀ fields' : List (StructField GoValue), fields'.map schema = fields.map schema →
      GetFieldAndTagNames (.struct fields') = GetFieldAndTagNames (.struct fields)) := by
  refine ⟨GetFieldAndTagNames_nodup fields hnd, GetFieldAndTagNames_nodup fields hnd, ?_⟩
  intro fields' h
  simp only [GetFieldAndTagNames, Indirect, if_true]
  rw [foldl_schema fields', foldl_schema fields, h]

/-- Claim C14 at the `Product` schema: the keys are the Go field names, not the
`json` aliases, and the map is the same for two products. -/
theorem C14_field_tag_map_of_distinct_names_witness :
    GetFieldAndTagNames (Product 1 "TestProduct" 1 true "test") =
      .ok [ ("ProductID", ["required,positiveNumberField"]),
            ("ProductName", ["nameField"]),
            ("Quantity", ["positiveNumberField"]),
            ("IsActive", ["alwaysTrueField"]),
            ("Slug", ["slugField"]) ] ∧
    GetFieldAndTagNames (Product 7 "Other Product" (-3) false "X") =
      GetFieldAndTagNames (Product 1 "TestProduct" 1 true "test") :=
  ⟨(C14_field_tag_map_of_distinct_names (productFields 1 "TestProduct" 1 true "test")
      (by decide)).1,
    (C14_field_tag_map_of_distinct_names (productFields 1 "TestProduct" 1 true "test")
      (by decide)).2.2 (productFields 7 "Other Product" (-3) false "X") rfl⟩

/-- Claim C14 as stated fails: the two blank fields of
`struct{ _ int; _ string }` share the name `_`, so the map has the single key
`_`, and its list holds two tags. -/
theorem C14_counterexample :
    GetFieldAndTagNames (.struct blankFields) = .ok [("_", ["", "required"])] ∧
    blankFields.length = 2 :=
  ⟨rfl, rfl⟩

/-! ## A rule on a value of another type -/

/-- Claim C12, as amended. For each typed rule and every value whose dynamic
type is not the one the rule asserts, for either silence flag, the rule
function ends in the run-time panic of the failed type assertion (`interface
conversion`), with nothing logged: the value is not passed, and no
`ValidationError` is made. -/
theorem C12_wrong_type_is_a_runtime_panic (v : GoValue) (failSilently : Bool) :
    ((∀ n, v ≠ .int n) →
      positiveNumberFieldValidator v failSilently =
        ⟨[], .panic (.interfaceConversion "int")⟩) ∧
    ((∀ s, v ≠ .string s) →
      nameFieldValidator v failSilently = ⟨[], .panic (.interfaceConversion "string")⟩) ∧
    ((∀ s, v ≠ .string s) →
      ∀ U, slugFieldValidator U v failSilently =
        ⟨[], .panic (.interfaceConversion "string")⟩) ∧
    ((∀ b, v ≠ .bool b) →
      alwaysTrueValidator v failSilently = ⟨[], .panic (.interfaceConversion "bool")⟩) := by
  refine ⟨?_, ?_, ?_, ?_⟩
  · intro h
    cases v with
    | int n => exact absurd rfl (h n)
    | _ => rfl
  · intro h
    cases v with
    | string s => exact absurd rfl (h s)
    | _ => rfl
  · intro h U
    cases v with
    | string s => exact absurd rfl (h s)
    | _ => rfl
  · intro h
    cases v with
    | bool b => exact absurd rfl (h b)
    | _ => rfl

/-- Claim C12 at a `float64` value, which has none of the asserted types. -/
theorem C12_wrong_type_is_a_runtime_panic_witness :
    positiveNumberFieldValidator (.other .float64) true =
      ⟨[], .panic (.interfaceConversion "int")⟩ ∧
    nameFieldValidator (.other .float64) false =
      ⟨[], .panic (.interfaceConversion "string")⟩ ∧
    slugFieldValidator latin1Only (.other .float64) true =
      ⟨[], .panic (.interfaceConversion "string")⟩ ∧
    alwaysTrueValidator (.other .float64) false =
      ⟨[], .panic (.interfaceConversion "bool")⟩ :=
  ⟨(C12_wrong_type_is_a_runtime_panic (.other .float64) true).1
      (by intro n h; cases h),
    (C12_wrong_type_is_a_runtime_panic (.other .float64) false).2.1
      (by intro n h; cases h),
    (C12_wrong_type_is_a_runtime_panic (.other .float64) true).2.2.1
      (by intro n h; cases h) latin1Only,
    (C12_wrong_type_is_a_runtime_panic (.other .float64) false).2.2.2
      (by intro n h; cases h)⟩

/-- Claim C12 as stated fails: `positiveNumberFieldValidator` on the string
`"abc"` ends in the run-time panic of the type assertion `v.(int)`, and so does
`Validate` on a record whose string field carries that rule, in both modes:
the program has no type-mismatch error of its own and nothing recovers the
panic. -/
theorem C12_counterexample :
    positiveNumberFieldValidator (.string "abc") true =
      ⟨[], .panic (.interfaceConversion "int")⟩ ∧
    Validate latin1Only ⟨.struct stringAsNumberFields, true⟩ id =
      ⟨[.lookup "A" "positiveNumberField", .invoke "A" "positiveNumberField"],
        .panic (.interfaceConversion "int")⟩ ∧
    Validate latin1Only ⟨.struct stringAsNumberFields, false⟩ id =
      ⟨[.lookup "A" "positiveNumberField", .invoke "A" "positiveNumberField"],
        .panic (.interfaceConversion "int")⟩ :=
  ⟨rfl, by decide, by decide⟩

/-! ## Rule names: split on commas, matched exactly -/

theorem splitRunes_of_not_mem (sep : Char) (a : List Char) (h : sep ∉ a) :
    splitRunes sep a = [a] := by
  induction a with
  | nil => rfl
  | cons c cs ih =>
    simp only [List.mem_cons, not_or] at h
    unfold splitRunes
    rw [if_neg (fun hc => h.1 hc.symm), ih h.2]

theorem splitRunes_append (sep : Char) (a b : List Char) (h : sep ∉ a) :
    splitRunes sep (a ++ sep :: b) = a :: splitRunes sep b := by
  induction a with
  | nil => simp [splitRunes]
  | cons c cs ih =>
    simp only [List.mem_cons, not_or] at h
    have hne : ¬ c = sep := fun hc => h.1 hc.symm
    simp only [List.cons_append, splitRunes, if_neg hne]
    rw [show cs.append (sep :: b) = cs ++ sep :: b from rfl, ih h.2]

theorem Split_joinTag (names : List String) (hne : names ≠ [])
    (hc : ∀ r ∈ names, ',' ∉ r.data) : Split (joinTag names) ',' = names := by
  induction names with
  | nil => exact absurd rfl hne
  | cons r rs ih =>
    have hr := hc r (List.mem_cons_self _ _)
    cases rs with
    | nil => simp [joinTag, Split, splitRunes_of_not_mem _ _ hr]
    | cons r' rs' =>
      have ih' := ih (by simp) (fun x hx => hc x (List.mem_cons_of_mem _ hx))
      have hd : (joinTag (r :: r' :: rs')).data =
          r.data ++ ',' :: (joinTag (r' :: rs')).data := by
        simp [joinTag, String.data_append]
      unfold Split at ih' ⊢
      rw [hd, splitRunes_append _ _ _ hr, List.map_cons, ih']

theorem rule_trace_tags (U : Nat → Bool) (t : String) (f : GoValue → Bool → Run)
    (h : (getValidatorMap U).lookup t = some f) (v : GoValue) (failSilently : Bool) :
    (f v failSilently).trace.filterMap Event.lookedUpTag = [] ∧
    (f v failSilently).trace.filterMap Event.invokedTag = [] := by
  rcases rule_run_cases U t f h v with h1 | ⟨msg, h1⟩ | ⟨want, h1⟩
  · simp [h1, Run.done]
  · rw [h1]; cases failSilently <;>
      simp [violationRun, Event.lookedUpTag, Event.invokedTag]
  · simp [h1, Run.stop]

/-- One step of the inner loop looks up its rule name, and calls the rule
unless the run stops before the call. -/
theorem validateSplittedTag_tags (U : Nat → Bool) (k : String)
    (fieldValue : Option (StructField GoValue)) (failSilently : Bool) (t : String) :
    (validateSplittedTag U k fieldValue failSilently t).trace.filterMap
        Event.lookedUpTag = [t] ∧
    ((validateSplittedTag U k fieldValue failSilently t).trace.filterMap
        Event.invokedTag = [t] ∨
      ((validateSplittedTag U k fieldValue failSilently t).trace.filterMap
          Event.invokedTag = [] ∧
        (validateSplittedTag U k fieldValue failSilently t).outcome ≠ .returned)) := by
  unfold validateSplittedTag
  cases hl : (getValidatorMap U).lookup t with
  | none =>
    simp [Run.andThen, Run.emit, Run.stop, Event.lookedUpTag, Event.invokedTag]
  | some f =>
    cases hi : Interface U fieldValue with
    | error p =>
      simp [Run.andThen, Run.emit, Run.stop, Event.lookedUpTag, Event.invokedTag]
    | ok v =>
      obtain ⟨h1, h2⟩ := rule_trace_tags U t f hl v failSilently
      by_cases hr : (f v failSilently).outcome = .returned
      · simp [Run.andThen, Run.emit, hr, Event.lookedUpTag, Event.invokedTag, h1, h2]
      · have hs : (Run.emit (Event.invoke k t)).andThen (f v failSilently) =
            ⟨Event.invoke k t :: (f v failSilently).trace, (f v failSilently).outcome⟩ := by
          simp [Run.andThen, Run.emit]
        simp [hs, Run.andThen, Run.emit, Event.lookedUpTag, Event.invokedTag, h1, h2]

/-- The inner loop over the rule names `ts` of a field looks the names up in
order, calls the rules in order, and has called all of them when it returns. -/
theorem rangeSplittedTags_tags (U : Nat → Bool) (k : String)
    (fieldValue : Option (StructField GoValue)) (failSilently : Bool)
    (ts : List String) :
    ((rangeSplittedTags U k fieldValue failSilently ts).trace.filterMap
        Event.lookedUpTag) <+: ts ∧
    ((rangeSplittedTags U k fieldValue failSilently ts).trace.filterMap
        Event.invokedTag) <+:
      ((rangeSplittedTags U k fieldValue failSilently ts).trace.filterMap
        Event.lookedUpTag) ∧
    ((rangeSplittedTags U k fieldValue failSilently ts).outcome = .returned →
      (rangeSplittedTags U k fieldValue failSilently ts).trace.filterMap
        Event.invokedTag = ts) := by
  induction ts with
  | nil => simp [rangeSplittedTags, Run.done]
  | cons t ts ih =>
    obtain ⟨hl, hi⟩ := validateSplittedTag_tags U k fieldValue failSilently t
    obtain ⟨ih1, ih2, ih3⟩ := ih
    simp only [rangeSplittedTags]
    by_cases hr : (validateSplittedTag U k fieldValue failSilently t).outcome = .returned
    · have hi' : (validateSplittedTag U k fieldValue failSilently t).trace.filterMap
          Event.invokedTag = [t] := by
        rcases hi with h | ⟨_, h⟩
        · exact h
        · exact absurd hr h
      rw [Run.andThen_returned _ hr]
      simp only [List.filterMap_append, hl, hi', List.singleton_append,
        List.cons_prefix_cons, true_and]
      exact ⟨ih1, ih2, fun h => by rw [ih3 h]⟩
    · rw [Run.andThen_stopped _ hr]
      rw [hl]
      refine ⟨by simp, ?_, fun h => absurd h hr⟩
      rcases hi with h | ⟨h, _⟩
      · rw [h]
      · rw [h]; simp

/-! ## What the strict-mode error tells -/

/-- Every rule function makes its `ValidationError` from one fixed reason text
and the flag: the error of a violation does not depend on the value checked. -/
theorem rule_error_fixed (U : Nat → Bool) (t : String) (rule : GoValue → Bool → Run)
    (h : (getValidatorMap U).lookup t = some rule) :
    ∃ msg, ∀ v failSilently e,
      (rule v failSilently).outcome = .panic (.logPanicln e) → e = ⟨msg, false⟩ := by
  have hV : ∀ (r : Run) (msg : String) (failSilently : Bool) (e : ValidationError),
      r = violationRun msg failSilently →
      r.outcome = .panic (.logPanicln e) → e = ⟨msg, false⟩ := by
    intro r msg fs e hr he
    subst hr
    cases fs with
    | true => simp [violationRun] at he
    | false =>
      simp only [violationRun, Bool.false_eq_true, if_false, Outcome.panic.injEq,
        Panic.logPanicln.injEq] at he
      exact he.symm
  have hN : ∀ (r : Run) (msg : String) (e : ValidationError),
      (∀ e', r.outcome ≠ .panic (.logPanicln e')) →
      r.outcome = .panic (.logPanicln e) → e = ⟨msg, false⟩ :=
    fun r msg e hne he => absurd he (hne e)
  rcases lookup_some_cases U t rule h with rfl | rfl | rfl | rfl | rfl
  · refine ⟨"required field cannot be empty", fun v fs e => ?_⟩
    cases v with
    | nil => exact hV _ _ fs e (by simp [requiredFieldValidator, throwErr_eq])
    | _ => exact hN _ _ e (by simp [requiredFieldValidator, Run.done])
  · refine ⟨"positive number field must greater then zero", fun v fs e => ?_⟩
    cases v with
    | int n =>
      by_cases hn : n < 0
      · exact hV _ _ fs e (by simp [positiveNumberFieldValidator, hn, throwErr_eq])
      · exact hN _ _ e (by simp [positiveNumberFieldValidator, hn, Run.done])
    | _ => exact hN _ _ e (by simp [positiveNumberFieldValidator, Run.stop])
  · refine ⟨"name field must be minimum 2 words", fun v fs e => ?_⟩
    cases v with
    | string s =>
      by_cases hn : (Split s ' ').length = 1
      · exact hV _ _ fs e (by simp [nameFieldValidator, hn, throwErr_eq])
      · exact hN _ _ e (by simp [nameFieldValidator, hn, Run.done])
    | _ => exact hN _ _ e (by simp [nameFieldValidator, Run.stop])
  · refine ⟨"always true field must be true", fun v fs e => ?_⟩
    cases v with
    | bool b =>
      cases b
      · exact hV _ _ fs e (by simp [alwaysTrueValidator, throwErr_eq])
      · exact hN _ _ e (by simp [alwaysTrueValidator, Run.done])
    | _ => exact hN _ _ e (by simp [alwaysTrueValidator, Run.stop])
  · refine ⟨"slug field must contains lowercase letters", fun v fs e => ?_⟩
    cases v with
    | string s =>
      by_cases hn : hasUpperLoop U s.data = true
      · exact hV _ _ fs e (by simp [slugFieldValidator, hn, throwErr_eq])
      · exact hN _ _ e (by simp [slugFieldValidator, hn, Run.done])
    | _ => exact hN _ _ e (by simp [slugFieldValidator, Run.stop])

theorem EndsAtRuleCall_of_ne (U : Nat → Bool) (r : Run)
    (h : ∀ e, r.outcome ≠ .panic (.logPanicln e)) : EndsAtRuleCall U r :=
  fun e he => absurd he (h e)

theorem EndsAtRuleCall_andThen {U : Nat → Bool} {a b : Run}
    (ha : EndsAtRuleCall U a) (hb : EndsAtRuleCall U b) :
    EndsAtRuleCall U (a.andThen b) := by
  intro e he
  by_cases h : a.outcome = .returned
  · rw [Run.andThen_returned _ h] at he ⊢
    obtain ⟨pre, k, t, rule, v, fs, htr, hl, ho⟩ := hb e he
    exact ⟨a.trace ++ pre, k, t, rule, v, fs, by simp [htr], hl, ho⟩
  · rw [Run.andThen_stopped _ h] at he ⊢
    exact ha e he

theorem validateSplittedTag_EndsAtRuleCall (U : Nat → Bool) (k : String)
    (fieldValue : Option (StructField GoValue)) (failSilently : Bool) (t : String) :
    EndsAtRuleCall U (validateSplittedTag U k fieldValue failSilently t) := by
  unfold validateSplittedTag
  cases hl : (getValidatorMap U).lookup t with
  | none =>
    apply EndsAtRuleCall_of_ne
    simp [Run.andThen, Run.emit, Run.stop]
  | some f =>
    cases hi : Interface U fieldValue with
    | error p =>
      apply EndsAtRuleCall_of_ne
      cases fieldValue with
      | none => simp [Interface] at hi; subst hi; simp [Run.andThen, Run.emit, Run.stop]
      | some g =>
        simp only [Interface] at hi
        split at hi
        · cases hi
        · cases hi; simp [Run.andThen, Run.emit, Run.stop]
    | ok v =>
      intro e he
      have hrun : ((Run.emit (Event.lookup k t)).andThen
          ((Run.emit (Event.invoke k t)).andThen (f v failSilently))) =
          ⟨Event.lookup k t :: Event.invoke k t :: (f v failSilently).trace,
            (f v failSilently).outcome⟩ := by
        simp [Run.andThen, Run.emit]
      simp only [hrun] at he ⊢
      have htrace : (f v failSilently).trace = [] := by
        rcases rule_run_cases U t f hl v with h1 | ⟨msg, h1⟩ | ⟨want, h1⟩
        · simp [h1, Run.done]
        · rw [h1] at he ⊢
          cases failSilently with
          | true => simp [violationRun] at he
          | false => simp [violationRun]
        · simp [h1, Run.stop]
      exact ⟨[Event.lookup k t], k, t, f, v, failSilently, by simp [htrace], hl, he⟩

theorem rangeSplittedTags_EndsAtRuleCall (U : Nat → Bool) (k : String)
    (fieldValue : Option (StructField GoValue)) (failSilently : Bool)
    (ts : List String) :
    EndsAtRuleCall U (rangeSplittedTags U k fieldValue failSilently ts) := by
  induction ts with
  | nil => exact EndsAtRuleCall_of_ne U _ (by simp [rangeSplittedTags, Run.done])
  | cons t ts ih =>
    exact EndsAtRuleCall_andThen (validateSplittedTag_EndsAtRuleCall U k fieldValue _ t) ih

theorem rangeTags_EndsAtRuleCall (U : Nat → Bool) (k : String)
    (fieldValue : Option (StructField GoValue)) (failSilently : Bool)
    (tags : List String) :
    EndsAtRuleCall U (rangeTags U k fieldValue failSilently tags) := by
  induction tags with
  | nil => exact EndsAtRuleCall_of_ne U _ (by simp [rangeTags, Run.done])
  | cons t ts ih =>
    exact EndsAtRuleCall_andThen (rangeSplittedTags_EndsAtRuleCall U k fieldValue _ _) ih

theorem rangeFields_EndsAtRuleCall (U : Nat → Bool) (rv : GoValue)
    (failSilently : Bool) (m : FieldTagMap) :
    EndsAtRuleCall U (rangeFields U rv failSilently m) := by
  induction m with
  | nil => exact EndsAtRuleCall_of_ne U _ (by simp [rangeFields, Run.done])
  | cons x m ih =>
    obtain ⟨k, v⟩ := x
    exact EndsAtRuleCall_andThen (rangeTags_EndsAtRuleCall U k _ _ v) ih

theorem Validate_EndsAtRuleCall (U : Nat → Bool) (validator : FieldValidator)
    (order : FieldTagMap → FieldTagMap) :
    EndsAtRuleCall U (Validate U validator order) := by
  unfold Validate
  simp only
  split
  · exact EndsAtRuleCall_of_ne U _ (by simp [Run.stop])
  · split
    · rename_i p hp
      apply EndsAtRuleCall_of_ne
      simp only [GetFieldAndTagNames] at hp
      split at hp <;> simp at hp <;> subst hp <;> simp [Run.stop]
    · rw [Run.andThen_done]
      exact rangeFields_EndsAtRuleCall U _ _ _

/-- Claim C15, as amended. When two runs of `Validate` each end in the fatal
error of a rule violation in strict mode, and the violated rule is the same
(registered under the same name `t`) while the violated fields `k₁` and `k₂` may
differ, the `ValidationError` handed to `log.Panicln` is the same in both, and
for every address of the error value the two messages are the same text: the
message does not identify the field. -/
theorem C15_message_does_not_identify_the_field (U : Nat → Bool)
    (validator₁ validator₂ : FieldValidator) (order₁ order₂ : FieldTagMap → FieldTagMap)
    (k₁ k₂ t : String) (e₁ e₂ : ValidationError)
    (h₁ : ViolationAt (Validate U validator₁ order₁) k₁ t e₁)
    (h₂ : ViolationAt (Validate U validator₂ order₂) k₂ t e₂) :
    e₁ = e₂ ∧
    (∀ addr, violationMessage addr (Validate U validator₁ order₁) =
      some (Sprintln addr e₁)) ∧
    (∀ addr, violationMessage addr (Validate U validator₁ order₁) =
      violationMessage addr (Validate U validator₂ order₂)) := by
  obtain ⟨ho₁, pre₁, ht₁⟩ := h₁
  obtain ⟨ho₂, pre₂, ht₂⟩ := h₂
  obtain ⟨p₁, a₁, t₁, rule₁, v₁, fs₁, hp₁, hl₁, hr₁⟩ :=
    Validate_EndsAtRuleCall U validator₁ order₁ e₁ ho₁
  obtain ⟨p₂, a₂, t₂, rule₂, v₂, fs₂, hp₂, hl₂, hr₂⟩ :=
    Validate_EndsAtRuleCall U validator₂ order₂ e₂ ho₂
  have hk₁ : Event.invoke k₁ t = Event.invoke a₁ t₁ := by
    have h := (List.append_inj' (ht₁.symm.trans hp₁) rfl).2
    simpa using h
  have hk₂ : Event.invoke k₂ t = Event.invoke a₂ t₂ := by
    have h := (List.append_inj' (ht₂.symm.trans hp₂) rfl).2
    simpa using h
  have ht₁' : t₁ = t := by cases hk₁; rfl
  have ht₂' : t₂ = t := by cases hk₂; rfl
  rw [ht₁'] at hl₁
  rw [ht₂'] at hl₂
  have hrule : rule₁ = rule₂ := by
    rw [hl₁] at hl₂
    exact Option.some.inj hl₂
  subst hrule
  obtain ⟨msg, hmsg⟩ := rule_error_fixed U t rule₁ hl₁
  have he : e₁ = e₂ := (hmsg v₁ fs₁ e₁ hr₁).trans (hmsg v₂ fs₂ e₂ hr₂).symm
  refine ⟨he, ?_, ?_⟩
  · intro addr
    simp [violationMessage, ho₁]
  · intro addr
    simp [violationMessage, ho₁, ho₂, he]

/-- Claim C15 at two products, one with `ProductID = -1` and one with
`Quantity = -1`, in strict mode: `positiveNumberField` is violated on two
different fields, and the error and the message are the same. -/
theorem C15_message_does_not_identify_the_field_witness :
    ViolationAt
      (Validate latin1Only ⟨Product (-1) "Test Product" 5 true "test-slug", false⟩ id)
      "ProductID" "positiveNumberField"
      ⟨"positive number field must greater then zero", false⟩ ∧
    ViolationAt
      (Validate latin1Only ⟨Product 1 "Test Product" (-1) true "test-slug", false⟩ id)
      "Quantity" "positiveNumberField"
      ⟨"positive number field must greater then zero", false⟩ ∧
    (∀ addr,
      violationMessage addr
        (Validate latin1Only ⟨Product (-1) "Test Product" 5 true "test-slug", false⟩ id) =
      violationMessage addr
        (Validate latin1Only ⟨Product 1 "Test Product" (-1) true "test-slug", false⟩ id)) :=
  have h₁ : ViolationAt
      (Validate latin1Only ⟨Product (-1) "Test Product" 5 true "test-slug", false⟩ id)
      "ProductID" "positiveNumberField"
      ⟨"positive number field must greater then zero", false⟩ :=
    ⟨by decide,
      [.lookup "ProductID" "required", .invoke "ProductID" "required",
        .lookup "ProductID" "positiveNumberField"], by decide⟩
  have h₂ : ViolationAt
      (Validate latin1Only ⟨Product 1 "Test Product" (-1) true "test-slug", false⟩ id)
      "Quantity" "positiveNumberField"
      ⟨"positive number field must greater then zero", false⟩ :=
    ⟨by decide,
      [.lookup "ProductID" "required", .invoke "ProductID" "required",
        .lookup "ProductID" "positiveNumberField",
        .invoke "ProductID" "positiveNumberField",
        .lookup "ProductName" "nameField", .invoke "ProductName" "nameField",
        .lookup "Quantity" "positiveNumberField"], by decide⟩
  ⟨h₁, h₂,
    (C15_message_does_not_identify_the_field latin1Only _ _ id id "ProductID" "Quantity"
      "positiveNumberField" _ _ h₁ h₂).2.2⟩

/-- Claim C15 as stated fails: the strict runs on a product with
`ProductID = -1` and on a product with `Quantity = -1` end in the violation of
`positiveNumberField` on two different fields, and for every address of the
error value the message is the same text in both, so the messages do not
identify their respective fields. -/
theorem C15_counterexample :
    (Validate latin1Only ⟨Product (-1) "Test Product" 5 true "test-slug", false⟩ id).trace =
      [.lookup "ProductID" "required", .invoke "ProductID" "required",
        .lookup "ProductID" "positiveNumberField",
        .invoke "ProductID" "positiveNumberField"] ∧
    (Validate latin1Only ⟨Product 1 "Test Product" (-1) true "test-slug", false⟩ id).trace =
      [.lookup "ProductID" "required", .invoke "ProductID" "required",
        .lookup "ProductID" "positiveNumberField",
        .invoke "ProductID" "positiveNumberField",
        .lookup "ProductName" "nameField", .invoke "ProductName" "nameField",
        .lookup "Quantity" "positiveNumberField",
        .invoke "Quantity" "positiveNumberField"] ∧
    (∀ addr,
      violationMessage addr
          (Validate latin1Only ⟨Product (-1) "Test Product" 5 true "test-slug", false⟩
            id) =
        some (Sprintln addr ⟨"positive number field must greater then zero", false⟩) ∧
      violationMessage addr
          (Validate latin1Only ⟨Product 1 "Test Product" (-1) true "test-slug", false⟩
            id) =
        some (Sprintln addr ⟨"positive number field must greater then zero", false⟩)) ∧
    Sprintln 0xc000012340 ⟨"positive number field must greater then zero", false⟩ =
      "\x7b0xc000012340 false\x7d\n" := by
  have h₁ : (Validate latin1Only
      ⟨Product (-1) "Test Product" 5 true "test-slug", false⟩ id).outcome =
      .panic (.logPanicln ⟨"positive number field must greater then zero", false⟩) := by
    decide
  have h₂ : (Validate latin1Only
      ⟨Product 1 "Test Product" (-1) true "test-slug", false⟩ id).outcome =
      .panic (.logPanicln ⟨"positive number field must greater then zero", false⟩) := by
    decide
  refine ⟨by decide, by decide, fun addr => ⟨?_, ?_⟩, by decide⟩
  · simp [violationMessage, h₁]
  · simp [violationMessage, h₂]

/-! ## Malformed tags -/

theorem validateSplittedTag_unknown (U : Nat → Bool) (k : String)
    (fieldValue : Option (StructField GoValue)) (failSilently : Bool) (p : String)
    (hp : ((getValidatorMap U).lookup p).isSome = false) :
    validateSplittedTag U k fieldValue failSilently p =
      ⟨[.lookup k p], .fatal ("Unknown tag: " ++ p)⟩ := by
  have h : (getValidatorMap U).lookup p = none := by
    cases hl : (getValidatorMap U).lookup p with
    | none => rfl
    | some f => simp [hl] at hp
  simp [validateSplittedTag, h, Run.andThen, Run.emit, Run.stop]

/-- The inner loop ends in `log.Fatalf` at the first piece that is not
registered, when the rules of the pieces before it return. -/
theorem rangeSplittedTags_first_unknown (U : Nat → Bool) (k : String)
    (fieldValue : Option (StructField GoValue)) (failSilently : Bool)
    (good : List String) (p : String) (rest : List String)
    (hp : ((getValidatorMap U).lookup p).isSome = false)
    (hgood : ∀ t ∈ good,
      (validateSplittedTag U k fieldValue failSilently t).outcome = .returned) :
    (rangeSplittedTags U k fieldValue failSilently (good ++ p :: rest)).outcome =
      .fatal ("Unknown tag: " ++ p) ∧
    (rangeSplittedTags U k fieldValue failSilently (good ++ p :: rest)).trace.filterMap
      Event.lookedUpTag = good ++ [p] := by
  induction good with
  | nil =>
    simp only [List.nil_append, rangeSplittedTags]
    rw [validateSplittedTag_unknown U k fieldValue failSilently p hp,
      Run.andThen_stopped _ (by simp)]
    simp [Event.lookedUpTag]
  | cons t ts ih =>
    have ht := hgood t (List.mem_cons_self _ _)
    obtain ⟨ih1, ih2⟩ := ih (fun x hx => hgood x (List.mem_cons_of_mem _ hx))
    have hcons : rangeSplittedTags U k fieldValue failSilently (t :: (ts ++ p :: rest)) =
        (validateSplittedTag U k fieldValue failSilently t).andThen
          (rangeSplittedTags U k fieldValue failSilently (ts ++ p :: rest)) := rfl
    rw [show (t :: ts) ++ p :: rest = t :: (ts ++ p :: rest) from rfl, hcons,
      Run.andThen_returned _ ht]
    refine ⟨ih1, ?_⟩
    simp only [List.filterMap_append,
      (validateSplittedTag_tags U k fieldValue failSilently t).1, ih2]
    rfl

theorem validateSplittedTag_required_returns (U : Nat → Bool) (f : StructField GoValue)
    (failSilently : Bool) (hexp : IsExported U f.Name = true)
    (hv : f.value ≠ GoValue.nil) :
    (validateSplittedTag U f.Name (some f) failSilently "required").outcome =
      .returned := by
  have hl : (getValidatorMap U).lookup "required" = some requiredFieldValidator := rfl
  have hr : requiredFieldValidator f.value failSilently = Run.done := by
    cases hfv : f.value with
    | nil => exact absurd hfv hv
    | _ => rfl
  simp [validateSplittedTag, hl, Interface, hexp, hr, Run.andThen, Run.emit, Run.done]

theorem Validate_single_field (U : Nat → Bool) (f : StructField GoValue)
    (failSilently : Bool) (order : FieldTagMap → FieldTagMap) (hO : IsRangeOrder order) :
    Validate U ⟨.struct [f], failSilently⟩ order =
      rangeSplittedTags U f.Name (FieldByName (.struct [f]) f.Name) failSilently
        (ruleNames f) := by
  have htags : GetFieldAndTagNames (.struct [f]) =
      .ok [(f.Name, [f.Tag.Get "validate"])] := rfl
  have hord : order [(f.Name, [f.Tag.Get "validate"])] =
      [(f.Name, [f.Tag.Get "validate"])] := List.perm_singleton.1 (hO _)
  simp only [Validate, GoValue.Kind, htags, hord, rangeFields, rangeTags,
    Run.andThen_done, ruleNames]
  simp

theorem FieldByName_single (U : Nat → Bool) (f : StructField GoValue)
    (hexp : IsExported U f.Name = true) :
    FieldByName (.struct [f]) f.Name = some f := by
  have hne := IsExported_ne_empty U _ hexp
  simp [FieldByName, hne, GoValue.fields, List.find?]

/-- Claim C20, as amended. Rule names are the pieces of the raw tag split on
`","` only, matched exactly against the registry. A tag `r1,...,rn` of
comma-free names splits into exactly `r1`, ..., `rn`; the inner loop of
`Validate` looks the pieces up from left to right and calls each rule found, in
that order, on the value of the field: all of them when the loop returns, and
an initial part of them when a rule ends the run first. The lookup succeeds on
exactly the five names, so a tag with a space after the comma, a trailing
comma, a doubled comma or another letter case splits into a piece that is not
registered; the loop ends in `log.Fatalf` naming the first such piece, for
either silence flag, when the rules of the pieces before it return, as
`required` does on an exported field holding a value other than the nil
interface. So on a record whose one field is exported and holds such a value,
the tags `required, positiveNumberField`, `required,` and
`required,,positiveNumberField` make `Validate` end in `log.Fatalf` naming the
piece, and so does the tag `Required` on every record with one field. -/
theorem C20_rule_names_split_on_commas (U : Nat → Bool) :
    (∀ names : List String, names ≠ [] → (∀ r ∈ names, ',' ∉ r.data) →
      Split (joinTag names) ',' = names) ∧
    (∀ (k : String) (fieldValue : Option (StructField GoValue)) (failSilently : Bool)
        (ts : List String),
      ((rangeSplittedTags U k fieldValue failSilently ts).trace.filterMap
          Event.lookedUpTag) <+: ts ∧
      ((rangeSplittedTags U k fieldValue failSilently ts).trace.filterMap
          Event.invokedTag) <+:
        ((rangeSplittedTags U k fieldValue failSilently ts).trace.filterMap
          Event.lookedUpTag) ∧
      ((rangeSplittedTags U k fieldValue failSilently ts).outcome = .returned →
        (rangeSplittedTags U k fieldValue failSilently ts).trace.filterMap
          Event.invokedTag = ts)) ∧
    (∀ t, ((getValidatorMap U).lookup t).isSome = true ↔
      t ∈ ["required", "positiveNumberField", "nameField", "alwaysTrueField",
        "slugField"]) ∧
    (∀ (k : String) (fieldValue : Option (StructField GoValue)) (failSilently : Bool)
        (good : List String) (p : String) (rest : List String),
      ((getValidatorMap U).lookup p).isSome = false →
      (∀ t ∈ good,
        (validateSplittedTag U k fieldValue failSilently t).outcome = .returned) →
      (rangeSplittedTags U k fieldValue failSilently (good ++ p :: rest)).outcome =
        .fatal ("Unknown tag: " ++ p) ∧
      (rangeSplittedTags U k fieldValue failSilently
        (good ++ p :: rest)).trace.filterMap Event.lookedUpTag = good ++ [p]) ∧
    (∀ (f : StructField GoValue) (failSilently : Bool)
        (order : FieldTagMap → FieldTagMap),
      IsRangeOrder order → IsExported U f.Name = true → f.value ≠ GoValue.nil →
      (f.Tag.Get "validate" = "required, positiveNumberField" →
        (Validate U ⟨.struct [f], failSilently⟩ order).outcome =
          .fatal "Unknown tag:  positiveNumberField") ∧
      (f.Tag.Get "validate" = "required," →
        (Validate U ⟨.struct [f], failSilently⟩ order).outcome =
          .fatal "Unknown tag: ") ∧
      (f.Tag.Get "validate" = "required,,positiveNumberField" →
        (Validate U ⟨.struct [f], failSilently⟩ order).outcome =
          .fatal "Unknown tag: ")) ∧
    (∀ (f : StructField GoValue) (failSilently : Bool)
        (order : FieldTagMap → FieldTagMap),
      IsRangeOrder order → f.Tag.Get "validate" = "Required" →
      Validate U ⟨.struct [f], failSilently⟩ order =
        ⟨[.lookup f.Name "Required"], .fatal "Unknown tag: Required"⟩) := by
  refine ⟨Split_joinTag, rangeSplittedTags_tags U, lookup_isSome_iff U,
    rangeSplittedTags_first_unknown U, ?_, ?_⟩
  · intro f failSilently order hO hexp hv
    have hreq : ∀ t ∈ ["required"],
        (validateSplittedTag U f.Name (some f) failSilently t).outcome = .returned := by
      intro t ht
      simp only [List.mem_singleton] at ht
      subst ht
      exact validateSplittedTag_required_returns U f failSilently hexp hv
    have hV := Validate_single_field U f failSilently order hO
    rw [FieldByName_single U f hexp] at hV
    refine ⟨?_, ?_, ?_⟩
    · intro htag
      have hs : ruleNames f = ["required"] ++ " positiveNumberField" :: [] := by
        rw [ruleNames, htag]; decide
      rw [hV, hs]
      exact (rangeSplittedTags_first_unknown U f.Name (some f) failSilently ["required"]
        " positiveNumberField" [] rfl hreq).1
    · intro htag
      have hs : ruleNames f = ["required"] ++ "" :: [] := by
        rw [ruleNames, htag]; decide
      rw [hV, hs]
      exact (rangeSplittedTags_first_unknown U f.Name (some f) failSilently ["required"]
        "" [] rfl hreq).1
    · intro htag
      have hs : ruleNames f = ["required"] ++ "" :: ["positiveNumberField"] := by
        rw [ruleNames, htag]; decide
      rw [hV, hs]
      exact (rangeSplittedTags_first_unknown U f.Name (some f) failSilently ["required"]
        "" ["positiveNumberField"] rfl hreq).1
  · intro f failSilently order hO htag
    have hs : ruleNames f = ["Required"] := by
      rw [ruleNames, htag]; decide
    rw [Validate_single_field U f failSilently order hO, hs]
    simp only [rangeSplittedTags]
    rw [validateSplittedTag_unknown U f.Name _ failSilently "Required" rfl,
      Run.andThen_stopped _ (by simp)]
    rfl

/-- Claim C20 at a record with the one exported field `A int` holding 1: the
tag `required,positiveNumberField` splits into the two names, both rules are
called in that order, and the tag `required,` ends in `log.Fatalf`. -/
theorem C20_rule_names_split_on_commas_witness :
    Split (joinTag ["required", "positiveNumberField"]) ',' =
      ["required", "positiveNumberField"] ∧
    Validate latin1Only
        ⟨.struct (taggedIntFields "required,positiveNumberField"), true⟩ List.reverse =
      ⟨[.lookup "A" "required", .invoke "A" "required",
        .lookup "A" "positiveNumberField", .invoke "A" "positiveNumberField"],
        .returned⟩ ∧
    (Validate latin1Only ⟨.struct (taggedIntFields "required,"), false⟩
      List.reverse).outcome = .fatal "Unknown tag: " ∧
    Validate latin1Only ⟨.struct (taggedIntFields "Required"), true⟩ List.reverse =
      ⟨[.lookup "A" "Required"], .fatal "Unknown tag: Required"⟩ :=
  ⟨(C20_rule_names_split_on_commas latin1Only).1 ["required", "positiveNumberField"]
      (by decide) (by decide),
    by decide,
    ((C20_rule_names_split_on_commas latin1Only).2.2.2.2.1
      ⟨"A", [("validate", "required,")], .int 1⟩ false List.reverse
      (fun m => List.reverse_perm m) (by decide) (by intro h; cases h)).2.1 rfl,
    (C20_rule_names_split_on_commas latin1Only).2.2.2.2.2
      ⟨"A", [("validate", "Required")], .int 1⟩ true List.reverse
      (fun m => List.reverse_perm m) rfl⟩

/-- Claim C20 as stated fails: on the record `struct{ a int }{1}` whose
unexported field carries the tag `required,` with a trailing comma, `Validate`
does not end in the unknown-rule error: after the lookup of `required` it panics
inside `reflect`, in both modes, before the empty piece is looked up. -/
theorem C20_counterexample :
    Split "required," ',' = ["required", ""] ∧
    Validate latin1Only ⟨.struct unexportedTrailingCommaFields, true⟩ id =
      ⟨[.lookup "a" "required"], .panic (.reflect
        "reflect.Value.Interface: cannot return value obtained from unexported field or method")⟩ ∧
    Validate latin1Only ⟨.struct unexportedTrailingCommaFields, false⟩ id =
      ⟨[.lookup "a" "required"], .panic (.reflect
        "reflect.Value.Interface: cannot return value obtained from unexported field or method")⟩ :=
  ⟨by decide, by decide, by decide⟩

end GoModelValidator
